import Mathlib

/-!
Verification development for the eduai_email bulk mailer (src/app.py together
with src/mailer/utils.py and src/mailer/db.py).

Python strings are modelled as lists of characters.  Every regular-expression
pass of the source is hand-compiled into an executable Lean function whose
deterministic behaviour was derived from the concrete pattern (greedy
matching with backtracking analysed per pattern).  Functions whose Python
original consumes more than one character per step take an explicit fuel
argument so that they stay structurally recursive and kernel-computable; the
public wrapper passes the input length as fuel, which is always sufficient
because every recursive call consumes at least one character.

External collaborators (SMTP transport, the sqlite log store, Flask template
rendering) are modelled as per-recipient environment records: the transport
returns an (ok, error) pair and never raises (src/mailer/utils.py catches all
exceptions), while a log append may raise (src/app.py itself guards one
log_entry call with try/except, acknowledging that possibility).
-/

namespace EduMail

abbrev Chars := List Char

/-- Whitespace set shared by Python str.strip / str.split and the regex
class used throughout src/app.py. -/
def pySpace (c : Char) : Bool :=
  c = ' ' || c = '\t' || c = '\n' || c = '\r' || c = '\x0b' || c = '\x0c'

/-- Boolean prefix test on character lists. -/
def isPre : Chars → Chars → Bool
  | [], _ => true
  | _ :: _, [] => false
  | a :: p, b :: s => a == b && isPre p s

/-- Boolean substring test: does p occur (contiguously) anywhere in s. -/
def occurs (p : Chars) : Chars → Bool
  | [] => isPre p []
  | s@(_ :: t) => isPre p s || occurs p t

/-- Number of positions of s at which p occurs (overlaps counted). -/
def countOcc (p : Chars) : Chars → Nat
  | [] => if isPre p [] then 1 else 0
  | s@(_ :: t) => (if isPre p s then 1 else 0) + countOcc p t

/-- Fueled core of Python str.replace(p, r): leftmost, non-overlapping,
global.  An empty pattern never arises in the source (the placeholders are
fixed non-empty literals), so that case is treated as a non-match. -/
def replaceAllF (p r : Chars) : Nat → Chars → Chars
  | 0, s => s
  | _ + 1, [] => []
  | fuel + 1, c :: cs =>
    if isPre p (c :: cs) && !p.isEmpty then
      r ++ replaceAllF p r fuel (cs.drop (p.length - 1))
    else
      c :: replaceAllF p r fuel cs

/-- Python str.replace(p, r) on character lists. -/
def replaceAll (p r s : Chars) : Chars := replaceAllF p r s.length s

/-- Internal greeting marker of send_custom_task (src/app.py line 757). -/
def greetingMarker : Chars := "___RECIPIENT_NAME_PLACEHOLDER___".data

/-- Placeholder token produced by the formatting helpers and templates
(src/app.py, e.g. lines 502, 538, 764). -/
def recipientToken : Chars := "[[RECIPIENT_NAME]]".data

/-- Display name used for personalization: src/app.py line 837 reads
name = r.get('name') or 'Educator', so an empty name falls back to the
generic placeholder name. -/
def displayName (name : String) : String := if name = "" then "Educator" else name

/-- Per-recipient personalization performed by the send_custom_task worker
(src/app.py lines 837-842): first every [[RECIPIENT_NAME]] placeholder is
converted to the internal greeting marker, then the marker is replaced by
the recipient display name. -/
def personalizeHtml (genericHtml : Chars) (name : String) : Chars :=
  replaceAll greetingMarker (displayName name).data
    (replaceAll recipientToken greetingMarker genericHtml)

/-- Concrete generic HTML used to witness the personalization claim. -/
def c7WitnessHtml : Chars := "<p>Hi ___RECIPIENT_NAME_PLACEHOLDER___,</p>".data

/-- Case-insensitive prefix test; the first argument is a lowercase pattern
literal, the second the scanned text (models a (?i) literal). -/
def isPreCI : Chars → Chars → Bool
  | [], _ => true
  | _ :: _, [] => false
  | a :: p, b :: s => a == b.toLower && isPreCI p s

/-- Fueled core of re.sub(r'<[^>]+>', '', s) (src/app.py line 243): drop
every bracket pair with at least one non-'>' character inside; a '<' with
no such closing '>' is kept verbatim. -/
def stripTagsF : Nat → Chars → Chars
  | 0, s => s
  | _ + 1, [] => []
  | fuel + 1, c :: cs =>
    if c = '<' then
      let run := cs.takeWhile (fun d => d != '>')
      if run.isEmpty || (cs.drop run.length).isEmpty then c :: stripTagsF fuel cs
      else stripTagsF fuel (cs.drop (run.length + 1))
    else c :: stripTagsF fuel cs

def stripTags (s : Chars) : Chars := stripTagsF s.length s

/-- Tiny deterministic pattern language covering the boilerplate regexes of
has_meaningful_body: case-insensitive literals, \s*, \s+ and a two-character
alternation.  All source patterns place a non-space literal after each
whitespace item, so greedy matching needs no backtracking. -/
inductive Pat where
  | lit (w : List Char)
  | ws0
  | ws1
  | alt2 (a b : Char)

def matchPats : List Pat → Chars → Option Nat
  | [], _ => some 0
  | Pat.lit w :: ps, s =>
    if isPreCI w s then (matchPats ps (s.drop w.length)).map (· + w.length) else none
  | Pat.ws0 :: ps, s =>
    let n := (s.takeWhile pySpace).length
    (matchPats ps (s.drop n)).map (· + n)
  | Pat.ws1 :: ps, s =>
    let n := (s.takeWhile pySpace).length
    if n = 0 then none else (matchPats ps (s.drop n)).map (· + n)
  | Pat.alt2 a b :: ps, s =>
    match s with
    | [] => none
    | c :: t => if c = a || c = b then (matchPats ps t).map (· + 1) else none

/-- Fueled global re.sub(pattern, '', s) for the deterministic patterns
above (leftmost, non-overlapping). -/
def subPatsF (ps : List Pat) : Nat → Chars → Chars
  | 0, s => s
  | _ + 1, [] => []
  | fuel + 1, c :: cs =>
    match matchPats ps (c :: cs) with
    | some (n + 1) => subPatsF ps fuel (cs.drop n)
    | _ => c :: subPatsF ps fuel cs

def subPats (ps : List Pat) (s : Chars) : Chars := subPatsF ps s.length s

/-- src/app.py line 245: eduai\s*hub\s*(•|-)\s*eduaihub\.in\s*(•|-)\s*unsubscribe. -/
def boilerPat1 : List Pat :=
  [Pat.lit "eduai".data, Pat.ws0, Pat.lit "hub".data, Pat.ws0, Pat.alt2 '•' '-',
    Pat.ws0, Pat.lit "eduaihub.in".data, Pat.ws0, Pat.alt2 '•' '-', Pat.ws0,
    Pat.lit "unsubscribe".data]

/-- src/app.py line 246: unsubscribe. -/
def boilerPat2 : List Pat := [Pat.lit "unsubscribe".data]

/-- src/app.py line 247: visit\s+eduaihub. -/
def boilerPat3 : List Pat := [Pat.lit "visit".data, Pat.ws1, Pat.lit "eduaihub".data]

/-- src/app.py line 248: where education meets intelligence. -/
def boilerPat4 : List Pat := [Pat.lit "where education meets intelligence".data]

def greetingWords : List Chars :=
  ["hi".data, "hello".data, "dear".data, "regards".data, "thanks".data, "thank you".data]

/-- Does s match \s*[,.]?\s* entirely: every character is whitespace except
at most one comma or period. -/
def wsWithOnePunct (s : Chars) : Bool :=
  match s.filter (fun c => !pySpace c) with
  | [] => true
  | [c] => c = ',' || c = '.'
  | _ => false

/-- src/app.py line 250: re.sub(r'(?i)^\s*(hi|hello|dear|regards|thanks|thank
you)\s*[,.]?\s*$', '', text) without MULTILINE matches only when the whole
text is a lone greeting (the trailing-dollar backtracking always extends the
match to the end of the string), in which case the text becomes empty. -/
def isLoneGreeting (s : Chars) : Bool :=
  let t := s.dropWhile pySpace
  greetingWords.any (fun w => isPreCI w t && wsWithOnePunct (t.drop w.length))

def greetingOnlySub (s : Chars) : Chars := if isLoneGreeting s then [] else s

/-- Python str.strip() with the default whitespace set. -/
def pyStrip (s : Chars) : Chars :=
  ((s.dropWhile pySpace).reverse.dropWhile pySpace).reverse

/-- Fueled core of re.sub(r'\s+', ' ', s) (src/app.py line 252). -/
def collapseWsF : Nat → Chars → Chars
  | 0, s => s
  | _ + 1, [] => []
  | fuel + 1, c :: cs =>
    if pySpace c then ' ' :: collapseWsF fuel (cs.dropWhile pySpace)
    else c :: collapseWsF fuel cs

def collapseWs (s : Chars) : Chars := collapseWsF s.length s

/-- Fueled core of Python str.split() with no separator: maximal runs of
non-whitespace characters. -/
def pySplitF : Nat → Chars → List Chars
  | 0, _ => []
  | _ + 1, [] => []
  | fuel + 1, c :: cs =>
    if pySpace c then pySplitF fuel cs
    else (c :: cs.takeWhile (fun d => !pySpace d)) ::
      pySplitF fuel (cs.dropWhile (fun d => !pySpace d))

def pySplit (s : Chars) : List Chars := pySplitF s.length s

def isAlnumAscii (c : Char) : Bool :=
  ('A' ≤ c && c ≤ 'Z') || ('a' ≤ c && c ≤ 'z') || ('0' ≤ c && c ≤ '9')

/-- The text computed by has_meaningful_body (src/app.py lines 243-252)
before the length / word-count / alphanumeric checks. -/
def hmbText (s : Chars) : Chars :=
  collapseWs (pyStrip (greetingOnlySub
    (subPats boilerPat4 (subPats boilerPat3 (subPats boilerPat2
      (subPats boilerPat1 (stripTags s)))))))

/-- Body-Presence Validator has_meaningful_body (src/app.py lines 233-259)
at its default thresholds min_chars = 30, min_words = 5, the only values
used by the callers. -/
def hasMeaningfulBody (s : Chars) : Bool :=
  if s.isEmpty then false
  else
    let text := hmbText s
    if text.length < 30 then false
    else if (pySplit text).length < 5 then false
    else text.any isAlnumAscii

/-- Word counter equal to the length of pySplit, in a shape convenient for
induction: the flag records whether we are inside a word. -/
def countWordsAux (inw : Bool) : Chars → Nat
  | [] => 0
  | c :: cs =>
    if pySpace c then countWordsAux false cs
    else (if inw then 0 else 1) + countWordsAux true cs

/-- Entry of the in-memory tasks map (src/app.py line 282); the error field
is present only after a worker fault (e.g. lines 897-898). -/
structure Task where
  status : String
  total : Nat
  sent : Nat
  failed : Nat
  error : Option String
deriving Repr, DecidableEq

/-- Task value created by the POST handlers before spawning the worker:
tasks[task_id] = Task with status pending and counters (total, 0, 0)
(src/app.py lines 674, 1100, 1402, 1432). -/
def initTask (n : Nat) : Task := ⟨"pending", n, 0, 0, none⟩

/-- Recipient as parsed from recipient_data (src/app.py lines 637-643). -/
structure Recipient where
  email : String
  name : String
deriving Repr, DecidableEq

/-- Row of the sqlite logs table as written by mdb.log_entry
(src/mailer/db.py line 26), without the timestamp. -/
structure LogEntry where
  email : String
  category : String
  subject : String
  status : String
deriving Repr, DecidableEq

/-- External-world behaviour for one recipient of send_custom_task:
sendOk/sendErr is the pair returned by mutils.send_email_with_attachments,
which catches every exception internally (src/mailer/utils.py lines 15-73)
and therefore never raises; the three log flags record whether the
corresponding mdb.log_entry call raises (sqlite access can fail, which the
source acknowledges by wrapping exactly one of the four calls in
try/except, src/app.py lines 852-855). -/
structure CustomEnv where
  sendOk : Bool
  sendErr : String
  logMainRaises : Bool
  logExceptRaises : Bool
  logSkipRaises : Bool
deriving Repr, DecidableEq

/-- External-world behaviour for one recipient of send_greetings_task or
send_product_task: the transport result and whether the (unguarded)
mdb.log_entry call raises. -/
structure LoopEnv where
  sendOk : Bool
  sendErr : String
  logRaises : Bool
deriving Repr, DecidableEq

/-- Running state of a background worker: the current task value, the trace
of task values after every lock-guarded mutation, the log rows appended so
far, the emails whose loop iteration has started (in order), the current
generic_html value (send_custom_task reassigns it every iteration), and whether
an exception is propagating to the outer handler. -/
structure WorkerRun where
  task : Task
  states : List Task
  logs : List LogEntry
  processed : List String
  gh : Chars
  aborted : Bool
deriving Repr, DecidableEq

def pushState (acc : WorkerRun) (t : Task) : WorkerRun :=
  { acc with task := t, states := acc.states ++ [t] }

def pushLog (acc : WorkerRun) (e : LogEntry) : WorkerRun :=
  { acc with logs := acc.logs ++ [e] }

/-- One iteration of the send_custom_task recipient loop (src/app.py lines
835-876).  The body personalizes the HTML (lines 837-842), validates it
(lines 848-856, with the skipped-empty-body log append guarded by
try/except), sends, and updates one counter under the lock; the log_entry
calls after the counter updates (lines 867, 871) are unguarded, so when one
raises the per-recipient except handler (lines 872-875) increments failed a
second time and appends its own log entry, which is itself unguarded: if it
also raises, the exception reaches the outer handler and the loop stops. -/
def customStep (subject : String) (acc : WorkerRun) (re : Recipient × CustomEnv) :
    WorkerRun :=
  if acc.aborted then acc
  else
    let gh' := replaceAll recipientToken greetingMarker acc.gh
    let finalHtml := replaceAll greetingMarker (displayName re.1.name).data gh'
    let acc1 : WorkerRun :=
      { acc with gh := gh', processed := acc.processed ++ [re.1.email] }
    if hasMeaningfulBody finalHtml = false then
      let acc2 := pushState acc1 { acc1.task with failed := acc1.task.failed + 1 }
      if re.2.logSkipRaises then acc2
      else pushLog acc2 ⟨re.1.email, "custom", subject, "skipped-empty-body"⟩
    else if re.2.sendOk then
      let acc2 := pushState acc1 { acc1.task with sent := acc1.task.sent + 1 }
      if re.2.logMainRaises = false then
        pushLog acc2 ⟨re.1.email, "custom", subject, "sent"⟩
      else
        let acc3 := pushState acc2 { acc2.task with failed := acc2.task.failed + 1 }
        if re.2.logExceptRaises = false then
          pushLog acc3 ⟨re.1.email, "custom", subject, "failed: log_entry"⟩
        else { acc3 with aborted := true }
    else
      let acc2 := pushState acc1 { acc1.task with failed := acc1.task.failed + 1 }
      if re.2.logMainRaises = false then
        pushLog acc2 ⟨re.1.email, "custom", subject, "failed: " ++ re.2.sendErr⟩
      else
        let acc3 := pushState acc2 { acc2.task with failed := acc2.task.failed + 1 }
        if re.2.logExceptRaises = false then
          pushLog acc3 ⟨re.1.email, "custom", subject, "failed: log_entry"⟩
        else { acc3 with aborted := true }

/-- The send_custom_task worker (src/app.py lines 737-898) from the point
where the generic HTML template has been computed: the preamble (template
rendering, css inlining) is the external request layer declared out of
scope by the specification.  The worker first sets status running and the
counters under the lock (lines 745-749), runs the recipient loop, and
finally sets status done (line 891); an exception escaping the loop is
caught by the outer handler, which stores status error together with the
traceback text (lines 892-898). -/
def customInit (gh0 : Chars) (n : Nat) : WorkerRun :=
  ⟨⟨"running", n, 0, 0, none⟩, [⟨"running", n, 0, 0, none⟩], [], [], gh0, false⟩

def runCustomTask (gh0 : Chars) (subject : String)
    (rs : List (Recipient × CustomEnv)) : WorkerRun :=
  let acc := rs.foldl (customStep subject) (customInit gh0 rs.length)
  if acc.aborted then
    pushState acc { acc.task with status := "error", error := some "Traceback (most recent call last)" }
  else
    pushState acc { acc.task with status := "done" }

/-- One iteration of the send_greetings_task loop (src/app.py lines
1116-1151) and of the send_product_task loop (lines 1450-1477), which have
the same counter/log structure: render (pure/external), send via
mutils.send_email_with_attachments (never raises), update one counter under
the lock and append a log row; there is no per-recipient try/except, so a
raising log_entry aborts the whole loop. -/
def simpleStep (category subject : String) (acc : WorkerRun)
    (re : String × LoopEnv) : WorkerRun :=
  if acc.aborted then acc
  else
    let acc1 : WorkerRun := { acc with processed := acc.processed ++ [re.1] }
    if re.2.sendOk then
      let acc2 := pushState acc1 { acc1.task with sent := acc1.task.sent + 1 }
      if re.2.logRaises then { acc2 with aborted := true }
      else pushLog acc2 ⟨re.1, category, subject, "sent"⟩
    else
      let acc2 := pushState acc1 { acc1.task with failed := acc1.task.failed + 1 }
      if re.2.logRaises then { acc2 with aborted := true }
      else pushLog acc2 ⟨re.1, category, subject, "failed: " ++ re.2.sendErr⟩

/-- The send_greetings_task worker (src/app.py lines 1108-1173). -/
def runGreetingsTask (kind subject : String) (rs : List (String × LoopEnv)) :
    WorkerRun :=
  let acc := rs.foldl (simpleStep ("greeting-" ++ kind) subject) (customInit [] rs.length)
  if acc.aborted then
    pushState acc { acc.task with status := "error", error := some "Traceback (most recent call last)" }
  else
    pushState acc { acc.task with status := "done" }

/-- The send_product_task worker (src/app.py lines 1439-1487).  When the
product key resolves to no product and the recipient list is nonempty, the
first loop iteration raises on product['name'] (line 1457) and the task
goes straight to error. -/
def runProductTask (productFound : Bool) (productKey subject : String)
    (rs : List (String × LoopEnv)) : WorkerRun :=
  let acc0 := customInit [] rs.length
  if productFound = false ∧ rs ≠ [] then
    pushState acc0 { acc0.task with status := "error", error := some "Traceback (most recent call last)" }
  else
    let acc := rs.foldl (simpleStep ("product-" ++ productKey) subject) acc0
    if acc.aborted then
      pushState acc { acc.task with status := "error", error := some "Traceback (most recent call last)" }
    else
      pushState acc { acc.task with status := "done" }

/-- Outcome of one recipient inside send_task (src/app.py lines 353-369):
message building and smtp.send_message either succeed or raise; the except
handler (lines 365-368) counts the failure, and there are no log_entry
calls in this worker. -/
inductive SendOutcome where
  | ok
  | exn (msg : String)
deriving Repr, DecidableEq

def sendTaskStep (acc : Task × List Task) (ro : String × SendOutcome) :
    Task × List Task :=
  match ro.2 with
  | SendOutcome.ok =>
    let t := { acc.1 with sent := acc.1.sent + 1 }
    (t, acc.2 ++ [t])
  | SendOutcome.exn _ =>
    let t := { acc.1 with failed := acc.1.failed + 1 }
    (t, acc.2 ++ [t])

/-- The send_task worker (src/app.py lines 334-379): after setting status
running and the counters (lines 337-341) it raises RuntimeError when the
SMTP settings are missing (lines 343-344), connects (line 346: a connection
or login failure raises), loops over the recipients, and sets status done;
any escaped exception makes the outer handler store status error with the
traceback (lines 373-379). -/
def runSendTask (cfgOk connOk : Bool) (rs : List (String × SendOutcome)) :
    Task × List Task :=
  let t1 : Task := ⟨"running", rs.length, 0, 0, none⟩
  if cfgOk = false then
    let te := { t1 with status := "error", error := some "RuntimeError: SMTP settings not configured" }
    (te, [t1, te])
  else if connOk = false then
    let te := { t1 with status := "error", error := some "Traceback (most recent call last)" }
    (te, [t1, te])
  else
    let acc := rs.foldl sendTaskStep (t1, [t1])
    let td := { acc.1 with status := "done" }
    (td, acc.2 ++ [td])

/-- SMTP transport configuration read from the environment at import time
(src/app.py lines 275-278). -/
structure SmtpEnv where
  server : Option String
  email : Option String
  password : Option String
deriving Repr, DecidableEq

/-- Python truthiness of an optional environment string: unset and empty
are both falsy. -/
def truthyOpt : Option String → Bool
  | none => false
  | some s => s != ""

/-- The condition of the checks if not SMTP_SERVER or not SMTP_EMAIL or not
SMTP_PASSWORD (src/app.py lines 307, 343, 386), negated. -/
def smtpConfigured (e : SmtpEnv) : Bool :=
  truthyOpt e.server && truthyOpt e.email && truthyOpt e.password

/-- Python str.splitlines() line-break set (single characters; the pair
CR LF is handled by the scanner). -/
def isLineBreak (c : Char) : Bool :=
  c = '\n' || c = '\r' || c = '\x0b' || c = '\x0c' || c = '\x1c' ||
    c = '\x1d' || c = '\x1e' || c = '\x85' || c = '\u2028' || c = '\u2029'

def pySplitlinesF : Nat → Chars → Chars → List Chars
  | 0, cur, _ => if cur.isEmpty then [] else [cur.reverse]
  | _ + 1, cur, [] => if cur.isEmpty then [] else [cur.reverse]
  | fuel + 1, cur, '\r' :: '\n' :: rest => cur.reverse :: pySplitlinesF fuel [] rest
  | fuel + 1, cur, c :: rest =>
    if isLineBreak c then cur.reverse :: pySplitlinesF fuel [] rest
    else pySplitlinesF fuel (c :: cur) rest

/-- Python str.splitlines(). -/
def pySplitlines (s : String) : List Chars := pySplitlinesF s.data.length [] s.data

/-- emails = [e.strip() for e in emails_raw.splitlines() if e.strip()]
(src/app.py line 1362). -/
def parseEmails (raw : String) : List String :=
  ((pySplitlines raw).map (fun l => String.mk (pyStrip l))).filter (fun e => e != "")

/-- POST /start-send (src/app.py lines 1354-1406) reduced to its effect on
the tasks map and worker spawning: parse the recipients, bail out on an
empty list, honour dry_run, then unconditionally create the pending task
and spawn send_task — the handler performs no SMTP-configuration check.
Template rendering and css inlining between these steps are external and
cannot touch the tasks map.  The custom_start_send handler (lines 621-702)
creates its task the same way, likewise without a configuration check. -/
def startSend (emailsRaw : String) (dryRun : Bool) (tid : String)
    (tasks : List (String × Task)) :
    List (String × Task) × Option (String × List String) :=
  let emails := parseEmails emailsRaw
  if emails.isEmpty then (tasks, none)
  else if dryRun then (tasks, none)
  else (tasks ++ [(tid, initTask emails.length)], some (tid, emails))

/-- Fueled Python str.split(sep) for a nonempty separator: leftmost,
non-overlapping. -/
def splitSepF (sep : Chars) : Nat → Chars → Chars → List Chars
  | 0, acc, s => [acc.reverse ++ s]
  | _ + 1, acc, [] => [acc.reverse]
  | fuel + 1, acc, c :: cs =>
    if isPre sep (c :: cs) && !sep.isEmpty then
      acc.reverse :: splitSepF sep fuel [] ((c :: cs).drop sep.length)
    else splitSepF sep fuel (c :: acc) cs

def splitSep (sep s : Chars) : List Chars := splitSepF sep s.length [] s

/-- The recipient_data parser of custom_start_send (src/app.py lines
636-643): one recipient per nonblank line, fields separated by the
two-character marker, email = parts[0].strip(), name = parts[1].strip()
when a second field exists, else the empty string. -/
def parseRecipientData (raw : String) : List Recipient :=
  ((pySplitlines raw).filter (fun l => !(pyStrip l).isEmpty)).map (fun l =>
    let parts := splitSep "||".data l
    ⟨String.mk (pyStrip (parts.headD [])),
      if parts.length > 1 then String.mk (pyStrip (parts.getD 1 [])) else ""⟩)

/-- POST /custom-start-send (src/app.py lines 621-702) reduced to its
effect on the tasks map and worker spawning: parse the recipients, bail
out on an empty list, validate email_fragment (else email_html, else
nothing) with has_meaningful_body, honour dry_run, then unconditionally
create the pending task and spawn send_custom_task — like start_send, the
handler performs no SMTP-configuration check, and send_custom_task itself
has none either (its sends go through
mailer.utils.send_email_with_attachments, which catches every exception
and returns a failure pair). -/
def customStartSend (recipientData emailFragment emailHtml : String)
    (dryRun : Bool) (tid : String) (tasks : List (String × Task)) :
    List (String × Task) × Option (String × List Recipient) :=
  let recipients := parseRecipientData recipientData
  if recipients.isEmpty then (tasks, none)
  else if emailFragment ≠ "" then
    if hasMeaningfulBody emailFragment.data = false then (tasks, none)
    else if dryRun then (tasks, none)
    else (tasks ++ [(tid, initTask recipients.length)], some (tid, recipients))
  else if emailHtml ≠ "" then
    if hasMeaningfulBody emailHtml.data = false then (tasks, none)
    else if dryRun then (tasks, none)
    else (tasks ++ [(tid, initTask recipients.length)], some (tid, recipients))
  else (tasks, none)

/-- Generic HTML with the personalization marker and a body that passes the
Body-Presence Validator, used by the concrete worker runs. -/
def genericBodyHtml : Chars :=
  "<p>Hi ___RECIPIENT_NAME_PLACEHOLDER___, grading essays consumes entire weekends for educators.</p>".data

/-- Relation between consecutive task states inside a worker loop: a single
counter is incremented by exactly one, everything else is unchanged. -/
def stepRel (a b : Task) : Prop :=
  b.total = a.total ∧ b.status = a.status ∧ b.error = a.error ∧
    ((b.sent = a.sent + 1 ∧ b.failed = a.failed) ∨
      (b.failed = a.failed + 1 ∧ b.sent = a.sent))

/-- Relation between consecutive task states over a whole task lifetime:
the total never changes and each update increments exactly one of the two
counters by one or leaves both unchanged (status transitions). -/
def counterRel (a b : Task) : Prop :=
  b.total = a.total ∧
    ((b.sent = a.sent ∧ b.failed = a.failed) ∨
      (b.sent = a.sent + 1 ∧ b.failed = a.failed) ∨
      (b.failed = a.failed + 1 ∧ b.sent = a.sent))

/-- Allowed status transitions: pending to running, running to running
(counter updates), running to done or error. -/
def statusRel (a b : String) : Prop :=
  (a = "pending" ∧ b = "running") ∨
    (a = "running" ∧ (b = "running" ∨ b = "done" ∨ b = "error"))

/-- The task state b is the task state a with exactly one counter bumped. -/
def incOne (a b : Task) : Prop :=
  b = { a with sent := a.sent + 1 } ∨ b = { a with failed := a.failed + 1 }

/-- Invariant of a worker accumulator while the recipient loop runs. -/
def midInv (N : Nat) (acc : WorkerRun) : Prop :=
  acc.task.total = N ∧ acc.task.status = "running" ∧ acc.task.error = none ∧
    acc.states.getLast? = some acc.task ∧
    (∀ t ∈ acc.states, t.total = N ∧ t.status = "running" ∧ t.error = none) ∧
    List.Chain' stepRel acc.states

/-- Tabular dataset abstraction used by the spreadsheet flows: column names
plus rows of optional cells; a missing cell models a pandas NaN. -/
structure DataFrame where
  cols : List String
  rows : List (List (Option String))
deriving Repr, DecidableEq

/-- str(v) of a cell inside the row-matching lambda (src/app.py line 468):
a missing value prints as nan. -/
def cellStr : Option String → String
  | none => "nan"
  | some v => v

def lowerStr (s : String) : String := String.mk (s.data.map Char.toLower)

/-- Column selection of extract_emails_from_dataframe (src/app.py lines
298-301): the first column whose lowercased name contains email, else
column 0. -/
def emailColIdx (df : DataFrame) : Nat :=
  match df.cols.findIdx? (fun c => occurs "email".data (lowerStr c).data) with
  | some i => i
  | none => 0

def colValues (df : DataFrame) (i : Nat) : List (Option String) :=
  df.rows.map (fun r => r.getD i none)

/-- Fueled core of pandas Series.unique(): keep the first occurrence of
each value, preserving order, with exact (case-sensitive) equality. -/
def dedupFirstF : Nat → List String → List String
  | 0, l => l
  | _ + 1, [] => []
  | fuel + 1, x :: xs => x :: dedupFirstF fuel (xs.filter (fun y => y != x))

def dedupFirst (l : List String) : List String := dedupFirstF l.length l

/-- extract_emails_from_dataframe (src/app.py lines 297-302):
df[col].dropna().astype(str).str.strip().unique().tolist().  Note that
dropna removes only null cells; a cell that strips to the empty string is
kept. -/
def extract_emails_from_dataframe (df : DataFrame) : List String :=
  dedupFirst (((colValues df (emailColIdx df)).filterMap id).map
    (fun s => String.mk (pyStrip s.data)))

/-- Name-column discovery of custom_send (src/app.py lines 461-465): first
column whose lowercased name contains name, first or full. -/
def nameColIdx (df : DataFrame) : Option Nat :=
  df.cols.findIdx? (fun c =>
    occurs "name".data (lowerStr c).data || occurs "first".data (lowerStr c).data ||
      occurs "full".data (lowerStr c).data)

/-- Row predicate of the best-effort name lookup (src/app.py line 468):
some cell of the row contains the email as a lowercased substring. -/
def rowMatchesEmail (e : String) (row : List (Option String)) : Bool :=
  row.any (fun v => occurs (lowerStr e).data (lowerStr (cellStr v)).data)

/-- Recipient list built by custom_send from an uploaded table (src/app.py
lines 460-477): extracted emails, each paired with the name cell of the
first row containing the email, or the empty name. -/
def recipientsFromDataframe (df : DataFrame) : List Recipient :=
  let emails := extract_emails_from_dataframe df
  match nameColIdx df with
  | none => emails.map (fun e => ⟨e, ""⟩)
  | some nc =>
    emails.map (fun e =>
      match df.rows.find? (rowMatchesEmail e) with
      | none => ⟨e, ""⟩
      | some row => ⟨e, cellStr (row.getD nc none)⟩)

/-- The example table of the claim: two identical rows. -/
def ashaDf : DataFrame :=
  ⟨["Full Name", "Email Address"],
    [[some "Asha Rao", some "asha@x.com"], [some "Asha Rao", some "asha@x.com"]]⟩

/-- A table with a whitespace-only cell in the email column. -/
def blankCellDf : DataFrame := ⟨["Email"], [[some "   "], [some "a@x.com"]]⟩

/-- Length of the maximal leading whitespace run (a greedy \s* item). -/
def wsRunLen (s : Chars) : Nat := (s.takeWhile pySpace).length

/-- Index of the last newline inside the maximal leading whitespace run, if
any: a greedy \s*\n consumes the run up to and including that newline. -/
def wsRunLastNl : Chars → Option Nat
  | [] => none
  | c :: cs =>
    if pySpace c then
      match wsRunLastNl cs with
      | some i => some (i + 1)
      | none => if c = '\n' then some 0 else none
    else none

/-- Length of the rest of the current line (a greedy trailing item on the
class of non-newline characters). -/
def lineLen (s : Chars) : Nat := (s.takeWhile (fun c => c != '\n')).length

/-- Case-insensitive substring test (lowercase pattern literal). -/
def occursCI (p : Chars) : Chars → Bool
  | [] => isPreCI p []
  | s@(_ :: t) => isPreCI p s || occursCI p t

/-- Python \w for the ASCII strings this application handles. -/
def isWordChar (c : Char) : Bool := isAlnumAscii c || c = '_'

/-- Fueled global re.sub(r'(?i)\blabel\s*', '', s) used by
sanitize_text_field (src/app.py lines 35-36); the flag records whether the
previous character of the original string is a word character, so the word
boundary before the label can be tested. -/
def labelSubF (lab : Chars) : Nat → Bool → Chars → Chars
  | 0, _, s => s
  | _ + 1, _, [] => []
  | fuel + 1, prevWord, c :: cs =>
    if !prevWord && isPreCI lab (c :: cs) then
      labelSubF lab fuel false (((c :: cs).drop lab.length).dropWhile pySpace)
    else c :: labelSubF lab fuel (isWordChar c) cs

def labelSub (lab : Chars) (s : Chars) : Chars := labelSubF lab s.length false s

/-- sanitize_text_field (src/app.py lines 31-37): remove 'hook:' and
'body:' labels at word boundaries together with following whitespace, then
strip. -/
def sanitize_text_field (s : Chars) : Chars :=
  if s.isEmpty then s
  else pyStrip (labelSub "body:".data (labelSub "hook:".data s))

/-- The character class [a-z0-9\-\._ ] under (?i) of the leading-greeting
pattern (src/app.py line 72). -/
def greetClass (c : Char) : Bool :=
  isAlnumAscii c || c = '-' || c = '.' || c = '_' || c = ' '

/-- Maximal run of name-class characters. -/
def classRunLenGreet (s : Chars) : Nat := (s.takeWhile greetClass).length

/-- Tail of the leading-greeting pattern after its [A-Z] character, at a
fixed length k of the name class: ,?\s*\n.  A comma not followed by a
whitespace run containing a newline kills this k (the optional comma is not
whitespace, so the no-comma alternative fails too). -/
def greetNameK (t : Chars) (k : Nat) : Option Nat :=
  match t.drop k with
  | ',' :: u =>
    match wsRunLastNl u with
    | some i => some (k + 1 + i + 1)
    | none => none
  | u =>
    match wsRunLastNl u with
    | some i => some (k + i + 1)
    | none => none

/-- Greedy {0,40} with backtracking: try the longest class run first. -/
def greetNameDesc (t : Chars) : Nat → Option Nat
  | 0 => greetNameK t 0
  | k + 1 =>
    match greetNameK t (k + 1) with
    | some n => some n
    | none => greetNameDesc t k

/-- src/app.py line 72:
re.sub(r'(?i)^\s*(hi|hello|dear)\s+[A-Z][a-z0-9\-\._ ]\x7b0,40\x7d,?\s*\n', '', raw).
Without MULTILINE the anchor restricts the match to the start of the
string, so the sub removes at most one leading greeting line.  Every
whitespace item before a literal is forced to its maximal run (the
literals start with non-whitespace characters); only the counted name
class backtracks. -/
def stripLeadingGreeting (s : Chars) : Chars :=
  let w := wsRunLen s
  let t0 := s.drop w
  let greet : Option Nat :=
    if isPreCI "hi".data t0 then some 2
    else if isPreCI "hello".data t0 then some 5
    else if isPreCI "dear".data t0 then some 4
    else none
  match greet with
  | none => s
  | some g =>
    let t1 := t0.drop g
    let w1 := wsRunLen t1
    if w1 = 0 then s
    else
      match t1.drop w1 with
      | [] => s
      | c :: t3 =>
        if c.isAlpha then
          match greetNameDesc t3 (min 40 (classRunLenGreet t3)) with
          | some n => s.drop (w + g + w1 + 1 + n)
          | none => s
        else s

/-- One iteration of the repeated group of src/app.py line 75:
\s*EduAIHub\s*\n\s*Practical AI Tools for Education\s*\n (case-insensitive,
multiline); returns the consumed length, which ends just after the last
newline of the final whitespace run. -/
def hdrIter1 (t : Chars) : Option Nat :=
  let w := wsRunLen t
  let t1 := t.drop w
  if isPreCI "eduaihub".data t1 then
    let t2 := t1.drop 8
    let w2 := wsRunLen t2
    if (wsRunLastNl t2).isSome then
      let t3 := t2.drop w2
      if isPreCI "practical ai tools for education".data t3 then
        match wsRunLastNl (t3.drop 32) with
        | some i => some (w + 8 + w2 + 32 + i + 1)
        | none => none
      else none
    else none
  else none

/-- One iteration of the repeated group of src/app.py line 76:
\s*EduAIHub\s*\n. -/
def hdrIter2 (t : Chars) : Option Nat :=
  let w := wsRunLen t
  let t1 := t.drop w
  if isPreCI "eduaihub".data t1 then
    match wsRunLastNl (t1.drop 8) with
    | some i => some (w + 8 + i + 1)
    | none => none
  else none

/-- Greedy (group)+: as many iterations as possible, ending where the last
iteration ends. -/
def hdrRepF (iter : Chars → Option Nat) : Nat → Chars → Option Nat
  | 0, _ => none
  | fuel + 1, t =>
    match iter t with
    | none => none
    | some a =>
      match hdrRepF iter fuel (t.drop a) with
      | some e => some (a + e)
      | none => some a

/-- Fueled multiline-anchored global sub with empty replacement for the
header patterns: candidate matches start at position 0 or right after a
newline; a match always ends with a newline, so scanning resumes at a line
start. -/
def hdrSubF (iter : Chars → Option Nat) : Nat → Bool → Chars → Chars
  | 0, _, s => s
  | _ + 1, _, [] => []
  | fuel + 1, atLS, c :: cs =>
    if atLS then
      match hdrRepF iter ((c :: cs).length + 1) (c :: cs) with
      | some a => hdrSubF iter fuel true ((c :: cs).drop a)
      | none => c :: hdrSubF iter fuel (c == '\n') cs
    else c :: hdrSubF iter fuel (c == '\n') cs

def hdrSub (iter : Chars → Option Nat) (s : Chars) : Chars :=
  hdrSubF iter s.length true s

/-- Fueled global re.sub(pattern, '', s) for unanchored patterns whose
leftmost-match length is computed by the iter argument (every iter below
consumes at least the leading newline). -/
def regexSubAllF (iter : Chars → Option Nat) : Nat → Chars → Chars
  | 0, s => s
  | _ + 1, [] => []
  | fuel + 1, c :: cs =>
    match iter (c :: cs) with
    | some a => regexSubAllF iter fuel ((c :: cs).drop a)
    | none => c :: regexSubAllF iter fuel cs

def regexSubAll (iter : Chars → Option Nat) (s : Chars) : Chars :=
  regexSubAllF iter s.length s

/-- The signature alternation of src/app.py line 79, in source order (the
alternatives are prefix-incompatible except thanks before thank you, which
the order below reproduces). -/
def sigAlt (t : Chars) : Option Nat :=
  if isPreCI "warm regards".data t then some 12
  else if isPreCI "regards".data t then some 7
  else if isPreCI "thanks".data t then some 6
  else if isPreCI "thank you".data t then some 9
  else none

/-- Leftmost-match length of src/app.py line 79:
\n\s*(warm regards|regards|thanks|thank you)[^\n]* (case-insensitive). -/
def sigIter (t : Chars) : Option Nat :=
  match t with
  | '\n' :: u =>
    let w := wsRunLen u
    match sigAlt (u.drop w) with
    | some al => some (1 + w + al + lineLen ((u.drop w).drop al))
    | none => none
  | _ => none

/-- The alternation of src/app.py line 80 after its \n\s* prefix:
visit\s+eduaihub[^\n]* | unsubscribe[^\n]* | visit[^\n]*eduaihub[^\n]*.
The third branch succeeds exactly when eduaihub occurs in the rest of the
current line, in which case the whole line remainder is consumed. -/
def visitAlt (t : Chars) : Option Nat :=
  if isPreCI "visit".data t then
    let t1 := t.drop 5
    let w := wsRunLen t1
    if w != 0 && isPreCI "eduaihub".data (t1.drop w) then
      some (5 + w + 8 + lineLen (t1.drop (w + 8)))
    else if occursCI "eduaihub".data (t1.take (lineLen t1)) then
      some (5 + lineLen t1)
    else none
  else if isPreCI "unsubscribe".data t then
    some (11 + lineLen (t.drop 11))
  else none

def visitIter (t : Chars) : Option Nat :=
  match t with
  | '\n' :: u =>
    let w := wsRunLen u
    (visitAlt (u.drop w)).map (fun n => 1 + w + n)
  | _ => none

/-- Tail of the quoted-tagline pattern of src/app.py line 81 after its
opening quote, at a fixed quoted length k:
\x22\s*—\s*[^\n]\x7b0,100\x7d. -/
def quoteTailK (v : Chars) (k : Nat) : Option Nat :=
  if (v.take k).all (fun c => c != '\n') then
    match v.drop k with
    | '"' :: r =>
      let w := wsRunLen r
      match r.drop w with
      | '—' :: r2 =>
        let w2 := wsRunLen r2
        some (k + 1 + w + 1 + w2 + min 100 (lineLen (r2.drop w2)))
      | _ => none
    | _ => none
  else none

/-- Greedy [^\n]\x7b0,200\x7d with backtracking: longest k first. -/
def quoteDesc (v : Chars) : Nat → Option Nat
  | 0 => quoteTailK v 0
  | k + 1 =>
    match quoteTailK v (k + 1) with
    | some n => some n
    | none => quoteDesc v k

/-- Leftmost-match length of src/app.py line 81. -/
def quoteIter (t : Chars) : Option Nat :=
  match t with
  | '\n' :: u =>
    let w := wsRunLen u
    match u.drop w with
    | '"' :: v => (quoteDesc v (min 200 (lineLen v))).map (fun n => 1 + w + 1 + n)
    | _ => none
  | _ => none

/-- Length of the maximal leading newline run. -/
def nlRun (s : Chars) : Nat := (s.takeWhile (fun c => c == '\n')).length

/-- Fueled re.sub(r'\n\x7b3,\x7d', '\n\n', s) (src/app.py line 84). -/
def collapseNlF : Nat → Chars → Chars
  | 0, s => s
  | _ + 1, [] => []
  | fuel + 1, c :: cs =>
    if c = '\n' then
      let r := nlRun (c :: cs)
      if 3 ≤ r then '\n' :: '\n' :: collapseNlF fuel ((c :: cs).drop r)
      else c :: collapseNlF fuel cs
    else c :: collapseNlF fuel cs

def collapseNl (s : Chars) : Chars := collapseNlF s.length s

/-- re.search(r'<[^>]+>', s) (src/app.py line 86). -/
def containsHtmlTag : Chars → Bool
  | [] => false
  | '<' :: cs =>
    (match cs with
     | [] => false
     | d :: _ => d != '>' && cs.contains '>') || containsHtmlTag cs
  | _ :: cs => containsHtmlTag cs

/-- First piece of re.split(r'(?<=[.!?])\s+', s): the prefix up to the
first whitespace character preceded by ., ! or ?. -/
def firstSentenceAux : Bool → Chars → Chars
  | _, [] => []
  | prevP, c :: cs =>
    if prevP && pySpace c then []
    else c :: firstSentenceAux (c = '.' || c = '!' || c = '?') cs

def firstSentence (s : Chars) : Chars := firstSentenceAux false s

/-- Python str.rstrip(). -/
def pyRstrip (s : Chars) : Chars := (s.reverse.dropWhile pySpace).reverse

/-- Python str.split('\n'). -/
def splitNlF : Chars → Chars → List Chars
  | acc, [] => [acc.reverse]
  | acc, c :: cs =>
    if c = '\n' then acc.reverse :: splitNlF [] cs else splitNlF (c :: acc) cs

def splitNl (s : Chars) : List Chars := splitNlF [] s

/-- Product catalog PRODUCTS (src/app.py lines 1233-1283). -/
structure Product where
  name : String
  desc : String
  link : String
  image_url : String
  pains : List String
  features : List String
deriving DecidableEq

def PRODUCTS : List (String × Product) :=
  [("class_tom",
    ⟨"Class Tom",
     "Revolutionize Any Classroom with AI — turns ordinary classrooms into intelligent, interactive learning spaces without extra hardware.",
     "https://www.eduaihub.in/class-tom/",
     "https://www.eduaihub.in/wp-content/uploads/2025/03/class_tom.jpg",
     ["Lack of affordable smart classroom solutions",
      "High setup costs and hardware dependencies",
      "Limited interactivity with traditional teaching tools"],
     ["Works offline — no internet required",
      "No additional hardware needed",
      "Teacher-friendly integrations and analytics"]⟩),
   ("vidya_hub",
    ⟨"Vidya Hub",
     "Teachers spend less time on paperwork and more time inspiring students — let AI handle grading, feedback, and planning.",
     "https://www.eduaihub.in/vidya-hub/",
     "https://www.eduaihub.in/wp-content/uploads/2025/03/vidya_hub.jpg",
     ["Overwhelming administrative workload for teachers",
      "Time-consuming grading and feedback processes",
      "Difficulty personalizing student feedback at scale"],
     ["Automated grading and feedback",
      "Lesson planning assistance",
      "Customizable teacher workflows"]⟩),
   ("ai_viz_lab",
    ⟨"AI Viz Lab",
     "Learning reimagined with AI and creativity — hands-on visual labs for students to explore and create.",
     "https://www.eduaihub.in/vidya-hub-2/",
     "https://www.eduaihub.in/wp-content/uploads/2025/03/ai_viz_lab.jpg",
     ["Lack of engaging, hands-on AI learning activities for students",
      "Limited opportunities for experimentation in traditional curricula",
      "Insufficient tools for visual learning and creativity with AI"],
     ["Interactive visual AI experiments",
      "Project-based learning modules",
      "Easy integration with classroom workflows"]⟩)]

/-- Environment variables read by stylize_marketing_body (src/app.py lines
109, 150, 152). -/
structure StylizeEnv where
  animatedGifUrl : Option String
  ctaPulseUrl : Option String
deriving DecidableEq

/-- The first product whose display name equals product_name and whose
image_url is truthy (src/app.py lines 100-107). -/
def product_img (product_name : Option String) : Option String :=
  (PRODUCTS.find? (fun kv => some kv.2.name == product_name && kv.2.image_url != "")).map
    (fun kv => kv.2.image_url)

/-- media_src = product_img or default_gif (src/app.py lines 109-110):
Python or keeps the first operand when truthy, otherwise the second operand
as is. -/
def media_src (env : StylizeEnv) (product_name : Option String) : Option String :=
  if truthyOpt (product_img product_name) then product_img product_name
  else env.animatedGifUrl

/-- Python str() of an optional value inside an f-string: None prints as
the four-character string None. -/
def pyStrOpt : Option String → String
  | none => "None"
  | some v => v

/-- The media block built unconditionally at src/app.py line 156. -/
def media_html (src : Option String) : Chars :=
  ("<div style=\"margin-bottom:8px;\"><img src=\"" ++ pyStrOpt src ++
    "\" alt=\"\" width=\"120\" style=\"display:block;border-radius:6px;max-width:100%;height:auto;\" /></div>").data

/-- The problem statement of src/app.py lines 89-97: first sentence of the
tag-stripped text, else a 160-character excerpt, truncated at 240
characters, with the product name appended when given. -/
def problemText (plain : Chars) (product_name : Option String) : Chars :=
  let s0 := pyStrip (firstSentence plain)
  let p0 :=
    if !s0.isEmpty then s0
    else pyStrip (plain.take 160) ++ (if 160 < plain.length then "...".data else [])
  let p1 := if 240 < p0.length then pyRstrip (p0.take 237) ++ "...".data else p0
  match product_name with
  | some pn => if pn = "" then p1 else p1 ++ (" — for " ++ pn ++ ".").data
  | none => p1

def leadKeywords : List String :=
  ["grade", "grading", "feedback", "admin", "administrative", "time", "overwhelm",
   "overwhelmed", "drowning", "tiring", "burden"]

def lowerChars (s : Chars) : Chars := s.map Char.toLower

def paraHtml (p : Chars) : Chars :=
  "<p style=\"margin:0 0 12px 0; font-size:14px;\">".data ++ p ++ "</p>".data

/-- The plaintext branch of src/app.py lines 115-130: newline-separated
paragraphs with a pain-first lead prepended when the first paragraph has no
lead keyword. -/
def plainBodyHtml (raw : Chars) (problem : Chars) : Chars :=
  let paras0 := ((splitNl raw).map pyStrip).filter (fun p => !p.isEmpty)
  let fp := paras0.headD []
  let paras :=
    if leadKeywords.any (fun k => occurs k.data (lowerChars fp)) then paras0
    else
      let found := leadKeywords.filter (fun k => paras0.any (fun s => occurs k.data (lowerChars s)))
      let lead : Chars :=
        if !found.isEmpty then
          ("Struggling with " ++ String.intercalate ", " (found.take 2) ++ "?").data
        else if !fp.isEmpty then fp
        else problem
      lead :: paras0
  List.intercalate ['\n'] (paras.map paraHtml)

/-- The product found by name or key for pains/CTA (src/app.py lines
134-139). -/
def prodFind (product_name : Option String) : Option Product :=
  (PRODUCTS.find? (fun kv => some kv.2.name == product_name || some kv.1 == product_name)).map
    (fun kv => kv.2)

/-- pains_block (src/app.py lines 133-144). -/
def pains_block (product_name : Option String) : Chars :=
  match prodFind product_name with
  | none => []
  | some prod =>
    match prod.pains with
    | [] => []
    | ps =>
      ("<ul style=\"margin:8px 0 12px 18px;\">" ++
        String.join (ps.map
          (fun x => "<li style=\"margin-bottom:6px;color:#4e453f;\">" ++ x ++ "</li>")) ++
        "</ul>").data

/-- cta_html (src/app.py lines 147-154). -/
def cta_html (env : StylizeEnv) (product_name : Option String) : Chars :=
  match prodFind product_name with
  | none => []
  | some prod =>
    if prod.link = "" then []
    else
      let gif_html :=
        match env.animatedGifUrl with
        | some g =>
          if g = "" then ""
          else "<img src=\"" ++ g ++ "\" alt=\"\" width=40 style=\"vertical-align:middle;margin-left:8px;border-radius:6px;\" />"
        | none => ""
      let icon_html :=
        match env.ctaPulseUrl with
        | some g =>
          if g = "" then ""
          else "<img src=\"" ++ g ++ "\" alt=\"\" width=18 style=\"vertical-align:middle;margin-left:8px;border-radius:4px;display:inline-block;\" />"
        | none => ""
      ("<div style=\"margin-top:10px;\"><a href=\"" ++ prod.link ++
        "\" style=\"display:inline-block;padding:10px 14px;background:linear-gradient(90deg,#2fc071,#1aa35a);color:#ffffff;text-decoration:none;border-radius:6px;font-weight:700;box-shadow:0 6px 18px rgba(46,139,87,0.18);\">Learn more about " ++
        prod.name ++ icon_html ++ gif_html ++ "</a></div>").data

/-- The cleanup pipeline of src/app.py lines 66-84 applied to the stripped
raw body. -/
def stylizeClean (raw0 : Chars) : Chars :=
  let r1 := sanitize_text_field raw0
  let r2 := stripLeadingGreeting r1
  let r3 := hdrSub hdrIter1 r2
  let r4 := hdrSub hdrIter2 r3
  let r5 := regexSubAll sigIter r4
  let r6 := regexSubAll visitIter r5
  let r7 := regexSubAll quoteIter r6
  pyStrip (collapseNl r7)

/-- stylize_marketing_body (src/app.py lines 56-167). -/
def stylize_marketing_body (env : StylizeEnv) (raw_body : String)
    (product_name : Option String) : Chars :=
  if raw_body = "" then []
  else
    let raw := stylizeClean (pyStrip raw_body.data)
    let contains_html := containsHtmlTag raw
    let plain := stripTags raw
    let problem := problemText plain product_name
    let body_html := if contains_html then raw else plainBodyHtml raw problem
    ("<div style=\"padding:0 0 12px 0;\">".data ++
     "<div style=\"background-color:#fff9d6;border-left:4px solid #f5d84c;padding:12px;border-radius:6px;color:#2f3b1f;font-weight:700;font-size:16px;line-height:1.3;margin-bottom:8px;\">".data ++
     problem ++ "</div>".data) ++
    (media_html (media_src env product_name) ++
     ("<div style=\"font-size:14px;color:#234b38;line-height:1.6;\">".data ++
      body_html ++ "</div>".data ++
      pains_block product_name ++ cta_html env product_name ++ "</div>".data))

/-- Does t begin with class=["\x27]body["\x27] (case-insensitive letters,
either quote character on each side independently)?  The class token of the
body-cell pattern at src/app.py lines 780-781 and 565-567. -/
def classTok (t : Chars) : Bool :=
  isPreCI "class=".data t &&
  (match t.drop 6 with
   | q :: u =>
     (q = '"' || q = '\'') && isPreCI "body".data u &&
       (match u.drop 4 with
        | q2 :: _ => q2 = '"' || q2 = '\''
        | [] => false)
   | [] => false)

def classInRun : Chars → Bool
  | [] => false
  | s@(_ :: t) => classTok s || classInRun t

/-- Length of group 1 of the body-cell pattern when the text starts a
matching opening tag: <td, then the maximal run of non-'>' characters
(which must contain the class token, and is closed by a '>'), through that
'>'.  Both [^>]* items are forced: neither the class token nor the closing
'>' can sit past the first '>'. -/
def tdOpenMatch (s : Chars) : Option Nat :=
  if isPreCI "<td".data s then
    let rest := s.drop 3
    let run := rest.takeWhile (fun c => c != '>')
    if (rest.drop run.length).isEmpty then none
    else if classInRun run then some (3 + run.length + 1)
    else none
  else none

/-- Index of the first case-insensitive occurrence of p (nonempty). -/
def findCIIdx (p : Chars) : Chars → Option Nat
  | [] => none
  | s@(_ :: t) => if isPreCI p s then some 0 else (findCIIdx p t).map (· + 1)

/-- Full body-cell match starting exactly at s: group-1 length and the lazy
middle length (group 2 is the following five characters matching </td>
case-insensitively). -/
def tdMatchAt (s : Chars) : Option (Nat × Nat) :=
  match tdOpenMatch s with
  | none => none
  | some g1len =>
    match findCIIdx "</td>".data (s.drop g1len) with
    | some mid => some (g1len, mid)
    | none => none

/-- re.search of the body-cell pattern (the gate at src/app.py lines 780
and 565). -/
def hasTdMatch : Chars → Bool
  | [] => false
  | s@(_ :: t) => (tdMatchAt s).isSome || hasTdMatch t

/-- Fueled Python re.sub replacement-template expansion with groups g0
(whole match), g1, g2: backslash escapes \1..\99 and \g<n> are group
references, \0 starts an octal escape, \a \b \f \n \r \t \v \\ are
character escapes, any other escaped ASCII letter is an error (None), and
an escaped non-letter is kept verbatim, as in sre_parse.parse_template. -/
def parseTemplateF (g0 g1 g2 : Chars) : Nat → Chars → Option Chars
  | 0, _ => none
  | _ + 1, [] => some []
  | fuel + 1, c :: cs =>
    if c ≠ '\\' then (parseTemplateF g0 g1 g2 fuel cs).map (c :: ·)
    else
      match cs with
      | [] => none
      | d :: ds =>
        if d = '\\' then (parseTemplateF g0 g1 g2 fuel ds).map (fun r => '\\' :: r)
        else if d = '0' then
          match ds with
          | e1 :: es1 =>
            if '0' ≤ e1 && e1 ≤ '7' then
              match es1 with
              | e2 :: es2 =>
                if '0' ≤ e2 && e2 ≤ '7' then
                  (parseTemplateF g0 g1 g2 fuel es2).map
                    (fun r => Char.ofNat ((e1.toNat - 48) * 8 + (e2.toNat - 48)) :: r)
                else (parseTemplateF g0 g1 g2 fuel es1).map
                  (fun r => Char.ofNat (e1.toNat - 48) :: r)
              | [] => (parseTemplateF g0 g1 g2 fuel es1).map
                  (fun r => Char.ofNat (e1.toNat - 48) :: r)
            else (parseTemplateF g0 g1 g2 fuel ds).map (fun r => Char.ofNat 0 :: r)
          | [] => (parseTemplateF g0 g1 g2 fuel ds).map (fun r => Char.ofNat 0 :: r)
        else if d.isDigit then
          if (ds.headD 'x').isDigit then
            let n := (d.toNat - 48) * 10 + ((ds.headD 'x').toNat - 48)
            if n = 1 then (parseTemplateF g0 g1 g2 fuel (ds.drop 1)).map (g1 ++ ·)
            else if n = 2 then (parseTemplateF g0 g1 g2 fuel (ds.drop 1)).map (g2 ++ ·)
            else none
          else
            let n := d.toNat - 48
            if n = 1 then (parseTemplateF g0 g1 g2 fuel ds).map (g1 ++ ·)
            else if n = 2 then (parseTemplateF g0 g1 g2 fuel ds).map (g2 ++ ·)
            else none
        else if d = 'g' then
          match ds with
          | '<' :: gs =>
            let digits := gs.takeWhile Char.isDigit
            if digits.isEmpty then none
            else
              match gs.drop digits.length with
              | '>' :: es =>
                let n := digits.foldl (fun a c => a * 10 + (c.toNat - 48)) 0
                if n = 0 then (parseTemplateF g0 g1 g2 fuel es).map (g0 ++ ·)
                else if n = 1 then (parseTemplateF g0 g1 g2 fuel es).map (g1 ++ ·)
                else if n = 2 then (parseTemplateF g0 g1 g2 fuel es).map (g2 ++ ·)
                else none
              | _ => none
          | _ => none
        else if d = 'a' then (parseTemplateF g0 g1 g2 fuel ds).map (fun r => '\x07' :: r)
        else if d = 'b' then (parseTemplateF g0 g1 g2 fuel ds).map (fun r => '\x08' :: r)
        else if d = 'f' then (parseTemplateF g0 g1 g2 fuel ds).map (fun r => '\x0c' :: r)
        else if d = 'n' then (parseTemplateF g0 g1 g2 fuel ds).map (fun r => '\n' :: r)
        else if d = 'r' then (parseTemplateF g0 g1 g2 fuel ds).map (fun r => '\r' :: r)
        else if d = 't' then (parseTemplateF g0 g1 g2 fuel ds).map (fun r => '\t' :: r)
        else if d = 'v' then (parseTemplateF g0 g1 g2 fuel ds).map (fun r => '\x0b' :: r)
        else if d.isAlpha then none
        else (parseTemplateF g0 g1 g2 fuel ds).map (fun r => '\\' :: d :: r)

def parseTemplate (g0 g1 g2 t : Chars) : Option Chars :=
  parseTemplateF g0 g1 g2 t.length t

/-- Fueled global re.sub of the body-cell pattern with replacement template
\1 + frag + \2 (src/app.py lines 781 and 567); a template error (None)
propagates to the caller's except branch. -/
def subTdF (frag : Chars) : Nat → Chars → Option Chars
  | 0, s => some s
  | _ + 1, [] => some []
  | fuel + 1, c :: cs =>
    match tdMatchAt (c :: cs) with
    | some (g1len, mid) =>
      let s := c :: cs
      let g1 := s.take g1len
      let g2 := (s.drop (g1len + mid)).take 5
      let whole := s.take (g1len + mid + 5)
      match parseTemplate whole g1 g2 ('\\' :: '1' :: (frag ++ ['\\', '2'])) with
      | none => none
      | some rep => (subTdF frag fuel (s.drop (g1len + mid + 5))).map (rep ++ ·)
    | none => (subTdF frag fuel cs).map (c :: ·)

def subTd (frag s : Chars) : Option Chars := subTdF frag s.length s

/-- Python str.replace(p, r, 1): first occurrence only. -/
def replaceFirstF (p r : Chars) : Nat → Chars → Chars
  | 0, s => s
  | _ + 1, [] => []
  | fuel + 1, c :: cs =>
    if isPre p (c :: cs) && !p.isEmpty then r ++ (c :: cs).drop p.length
    else c :: replaceFirstF p r fuel cs

def replaceFirst (p r s : Chars) : Chars := replaceFirstF p r s.length s

/-- The Skeleton Composer injection of src/app.py lines 779-787 (identical
at lines 564-573): replace every body-class cell's content via re.sub,
falling back to the skeleton plus the appended fragment when the
replacement template is invalid; else replace every [[AI_BODY]] token;
else insert a new body row before the first closing table tag. -/
def injectFragment (structure_html frag : Chars) : Chars :=
  if hasTdMatch structure_html then
    match subTd frag structure_html with
    | some g => g
    | none => structure_html ++ frag
  else if occurs "[[AI_BODY]]".data structure_html then
    replaceAll "[[AI_BODY]]".data frag structure_html
  else
    replaceFirst "</table>".data
      ("<tr><td class=\"body\">".data ++ frag ++ "</td></tr></table>".data)
      structure_html

/-- Two-body-cell skeleton used to refute the exactly-once claim. -/
def twoCellSkeleton : Chars :=
  "<table><tr><td class=\"body\">OLD1</td></tr><tr><td class='body'>OLD2</td></tr></table>".data

/-- Single-body-cell skeleton with header and footer cells. -/
def oneCellSkeleton : Chars :=
  "<table><tr><td class=\"header\">HDR</td></tr><tr><td class=\"body\">OLD</td></tr><tr><td class=\"footer\">FTR</td></tr></table>".data

theorem isPre_nil_iff (p : Chars) : isPre p [] = true ↔ p = [] := by
  cases p <;> simp [isPre]

theorem isPre_self_append (p t : Chars) : isPre p (p ++ t) = true := by
  induction p with
  | nil => simp [isPre]
  | cons a p ih => simpa [isPre] using ih

theorem isPre_split (x a b : Chars) (h : isPre x (a ++ b) = true) :
    isPre x a = true ∨ isPre a x = true := by
  induction a generalizing x with
  | nil => right; simp [isPre]
  | cons c as ih =>
    cases x with
    | nil => left; simp [isPre]
    | cons d xs =>
      simp only [List.cons_append, isPre, Bool.and_eq_true, beq_iff_eq] at h ⊢
      rcases h with ⟨rfl, h2⟩
      rcases ih xs h2 with h3 | h3
      · exact Or.inl ⟨rfl, h3⟩
      · exact Or.inr ⟨rfl, h3⟩

theorem occurs_cons (p : Chars) (c : Char) (t : Chars) :
    occurs p (c :: t) = (isPre p (c :: t) || occurs p t) := rfl

theorem occurs_of_isPre {p s : Chars} (h : isPre p s = true) : occurs p s = true := by
  cases s with
  | nil => simpa [occurs] using h
  | cons c t => simp [occurs, h]

theorem occurs_self_append (p t : Chars) : occurs p (p ++ t) = true :=
  occurs_of_isPre (isPre_self_append p t)

/-- Decompose an occurrence in a concatenation: either it starts inside the
left part (overlapping it), or it lies wholly in the right part. -/
theorem occurs_append_cases (p a b : Chars) (h : occurs p (a ++ b) = true) :
    (∃ q, q < a.length ∧ (isPre p (a.drop q) = true ∨ isPre (a.drop q) p = true)) ∨
      occurs p b = true := by
  induction a with
  | nil => right; simpa using h
  | cons c as ih =>
    rw [List.cons_append, occurs_cons, Bool.or_eq_true] at h
    rcases h with h | h
    · rcases isPre_split p (c :: as) b h with h2 | h2
      · exact Or.inl ⟨0, by simp, Or.inl (by simpa using h2)⟩
      · exact Or.inl ⟨0, by simp, Or.inr (by simpa using h2)⟩
    · rcases ih h with ⟨q, hq, hh⟩ | h2
      · exact Or.inl ⟨q + 1, by simpa using hq, by simpa using hh⟩
      · exact Or.inr h2

theorem drop_ne_nil_of_lt {l : Chars} {k : Nat} (h : k < l.length) : l.drop k ≠ [] := by
  simp [List.drop_eq_nil_iff]; omega

/-- If a nonempty proper suffix of the word w is a prefix of the output of
replaceAllF, it was already a prefix of the input at the same place: the
replacement text r cannot contribute, provided no such suffix of w is
prefix-compatible with r. -/
theorem pre_drop_replaceAllF (p r w : Chars)
    (hwA : ∀ k, k < w.length → 0 < k →
        isPre (w.drop k) r = false ∧ isPre r (w.drop k) = false) :
    ∀ fuel s k, s.length ≤ fuel → 0 < k → k < w.length →
      isPre (w.drop k) (replaceAllF p r fuel s) = true → isPre (w.drop k) s = true := by
  intro fuel
  induction fuel with
  | zero =>
    intro s k hs _ hkw h
    have hnil : s = [] := List.length_eq_zero.mp (Nat.le_zero.mp hs)
    subst hnil
    simpa [replaceAllF] using h
  | succ fuel ih =>
    intro s k hs hk hkw h
    cases s with
    | nil => simpa [replaceAllF] using h
    | cons c cs =>
      by_cases hm : (isPre p (c :: cs) && !p.isEmpty) = true
      · rw [replaceAllF, if_pos hm] at h
        rcases isPre_split (w.drop k) r _ h with h2 | h2
        · exact absurd h2 (by simp [(hwA k hkw hk).1])
        · exact absurd h2 (by simp [(hwA k hkw hk).2])
      · rw [replaceAllF, if_neg hm] at h
        rw [List.drop_eq_getElem_cons hkw] at h ⊢
        simp only [isPre, Bool.and_eq_true, beq_iff_eq] at h ⊢
        refine ⟨h.1, ?_⟩
        by_cases hk1 : k + 1 < w.length
        · have hcs : cs.length ≤ fuel := by
            have := hs; simp at this; omega
          exact ih cs (k + 1) hcs (Nat.succ_pos k) hk1 h.2
        · have : w.drop (k + 1) = [] := by
            simp [List.drop_eq_nil_iff]; omega
          simp [this, isPre]

/-- Main elimination lemma: the output of replaceAll contains no occurrence
of the word w, provided w does not occur in the input pieces that survive
and is prefix-incompatible with the replacement r in all offsets.  The
conditions are all decidable for the concrete placeholder strings used by
send_custom_task. -/
theorem occurs_replaceAllF_elim (p r w : Chars)
    (hp : p ≠ []) (hw2 : 2 ≤ w.length)
    (hwA : ∀ k, k < w.length → 0 < k →
        isPre (w.drop k) r = false ∧ isPre r (w.drop k) = false)
    (hwB : ∀ q, q < r.length → isPre w (r.drop q) = false)
    (hwC : ∀ q, q < r.length → isPre (r.drop q) w = false)
    (hwp : ∀ s : Chars, isPre w s = true → isPre p s = true) :
    ∀ fuel s, s.length ≤ fuel → occurs w (replaceAllF p r fuel s) = false := by
  intro fuel
  induction fuel with
  | zero =>
    intro s hs
    have hnil : s = [] := List.length_eq_zero.mp (Nat.le_zero.mp hs)
    subst hnil
    obtain ⟨d, ds, hd⟩ := List.exists_cons_of_ne_nil
      (show w ≠ [] by intro hcon; rw [hcon] at hw2; simp at hw2)
    rw [hd]; rfl
  | succ fuel ih =>
    intro s hs
    cases s with
    | nil =>
      obtain ⟨d, ds, hd⟩ := List.exists_cons_of_ne_nil
        (show w ≠ [] by intro hcon; rw [hcon] at hw2; simp at hw2)
      rw [hd]; rfl
    | cons c cs =>
      have hcs : cs.length ≤ fuel := by have := hs; simp at this; omega
      by_cases hm : (isPre p (c :: cs) && !p.isEmpty) = true
      · rw [replaceAllF, if_pos hm]
        by_contra hocc
        rw [Bool.not_eq_false] at hocc
        have hdrop : (cs.drop (p.length - 1)).length ≤ fuel := by
          have : (cs.drop (p.length - 1)).length ≤ cs.length := by simp
          omega
        rcases occurs_append_cases w r _ hocc with ⟨q, hq, hcase⟩ | htail
        · rcases hcase with hc | hc
          · exact absurd hc (by simp [hwB q hq])
          · exact absurd hc (by simp [hwC q hq])
        · exact absurd htail (by simp [ih _ hdrop])
      · rw [replaceAllF, if_neg hm]
        by_contra hocc
        rw [Bool.not_eq_false, occurs_cons, Bool.or_eq_true] at hocc
        rcases hocc with hpre | htail
        · -- a fresh occurrence of w starting at the copied character
          obtain ⟨d, ds, hd⟩ := List.exists_cons_of_ne_nil
            (show w ≠ [] by intro hcon; rw [hcon] at hw2; simp at hw2)
          subst hd
          simp only [isPre, Bool.and_eq_true, beq_iff_eq] at hpre
          have hpre2 : isPre ds cs = true := by
            have h1w : 1 < (d :: ds).length := hw2
            have := pre_drop_replaceAllF p r (d :: ds) hwA fuel cs 1 hcs Nat.one_pos h1w
            simpa using this (by simpa using hpre.2)
          have hwcc : isPre (d :: ds) (c :: cs) = true := by
            simp only [isPre, Bool.and_eq_true, beq_iff_eq]
            exact ⟨hpre.1, hpre2⟩
          have hppre : isPre p (c :: cs) = true := hwp _ hwcc
          simp [hppre, hp, List.isEmpty_iff] at hm
        · exact absurd htail (by simp [ih _ hcs])

/-- After a successful replacement pass the replacement text occurs in the
output whenever the pattern occurred in the input. -/
theorem occurs_replaceAllF_intro (p r : Chars) (hp : p ≠ []) :
    ∀ fuel s, s.length ≤ fuel → occurs p s = true →
      occurs r (replaceAllF p r fuel s) = true := by
  intro fuel
  induction fuel with
  | zero =>
    intro s hs hocc
    have hnil : s = [] := List.length_eq_zero.mp (Nat.le_zero.mp hs)
    subst hnil
    exact absurd ((isPre_nil_iff p).mp (by simpa [occurs] using hocc)) hp
  | succ fuel ih =>
    intro s hs hocc
    cases s with
    | nil => exact absurd ((isPre_nil_iff p).mp (by simpa [occurs] using hocc)) hp
    | cons c cs =>
      have hcs : cs.length ≤ fuel := by have := hs; simp at this; omega
      by_cases hm : (isPre p (c :: cs) && !p.isEmpty) = true
      · rw [replaceAllF, if_pos hm]
        have : isPre r (r ++ replaceAllF p r fuel (cs.drop (p.length - 1))) = true :=
          isPre_self_append r _
        exact occurs_of_isPre this
      · rw [replaceAllF, if_neg hm]
        rw [occurs_cons, Bool.or_eq_true] at hocc
        rcases hocc with hpre | htail
        · simp [hpre, hp, List.isEmpty_iff] at hm
        · rw [occurs_cons, Bool.or_eq_true]
          exact Or.inr (ih cs hcs htail)

/-- When the pattern does not occur in the input, the replacement pass is
the identity. -/
theorem replaceAllF_id_of_not_occurs (p r : Chars) :
    ∀ fuel s, s.length ≤ fuel → occurs p s = false → replaceAllF p r fuel s = s := by
  intro fuel
  induction fuel with
  | zero =>
    intro s hs _
    have hnil : s = [] := List.length_eq_zero.mp (Nat.le_zero.mp hs)
    subst hnil; rfl
  | succ fuel ih =>
    intro s hs hocc
    cases s with
    | nil => rfl
    | cons c cs =>
      have hcs : cs.length ≤ fuel := by have := hs; simp at this; omega
      rw [occurs_cons, Bool.or_eq_false_iff] at hocc
      rw [replaceAllF, if_neg (by simp [hocc.1]), ih cs hcs hocc.2]

theorem occurs_drop {w t : Chars} {n : Nat} (h : occurs w (t.drop n) = true) :
    occurs w t = true := by
  induction t generalizing n with
  | nil => simpa using h
  | cons c cs ih =>
    cases n with
    | zero => simpa using h
    | succ m =>
      rw [List.drop_succ_cons] at h
      rw [occurs_cons, Bool.or_eq_true]
      exact Or.inr (ih h)

/-- A word w that does not occur in the input cannot appear in the output of
a replacement pass either, provided w is prefix-incompatible with the
replacement text at every offset. -/
theorem occurs_replaceAllF_preserve (p r w : Chars)
    (hw2 : 2 ≤ w.length)
    (hwA : ∀ k, k < w.length → 0 < k →
        isPre (w.drop k) r = false ∧ isPre r (w.drop k) = false)
    (hwB : ∀ q, q < r.length → isPre w (r.drop q) = false)
    (hwC : ∀ q, q < r.length → isPre (r.drop q) w = false) :
    ∀ fuel s, s.length ≤ fuel → occurs w s = false →
      occurs w (replaceAllF p r fuel s) = false := by
  intro fuel
  induction fuel with
  | zero =>
    intro s hs hocc
    have hnil : s = [] := List.length_eq_zero.mp (Nat.le_zero.mp hs)
    subst hnil; simpa [replaceAllF] using hocc
  | succ fuel ih =>
    intro s hs hocc
    cases s with
    | nil => simpa [replaceAllF] using hocc
    | cons c cs =>
      have hcs : cs.length ≤ fuel := by have := hs; simp at this; omega
      rw [occurs_cons, Bool.or_eq_false_iff] at hocc
      by_cases hm : (isPre p (c :: cs) && !p.isEmpty) = true
      · rw [replaceAllF, if_pos hm]
        by_contra hcon
        rw [Bool.not_eq_false] at hcon
        have hdrop : (cs.drop (p.length - 1)).length ≤ fuel := by
          have : (cs.drop (p.length - 1)).length ≤ cs.length := by simp
          omega
        have hocc2 : occurs w (cs.drop (p.length - 1)) = false := by
          by_contra hcon2
          rw [Bool.not_eq_false] at hcon2
          have := occurs_drop hcon2
          simp [this] at hocc
        rcases occurs_append_cases w r _ hcon with ⟨q, hq, hcase⟩ | htail
        · rcases hcase with hc | hc
          · exact absurd hc (by simp [hwB q hq])
          · exact absurd hc (by simp [hwC q hq])
        · exact absurd htail (by simp [ih _ hdrop hocc2])
      · rw [replaceAllF, if_neg hm]
        by_contra hcon
        rw [Bool.not_eq_false, occurs_cons, Bool.or_eq_true] at hcon
        rcases hcon with hpre | htail
        · obtain ⟨d, ds, hd⟩ := List.exists_cons_of_ne_nil
            (show w ≠ [] by intro hc2; rw [hc2] at hw2; simp at hw2)
          subst hd
          simp only [isPre, Bool.and_eq_true, beq_iff_eq] at hpre
          have hpre2 : isPre ds cs = true := by
            have h1w : 1 < (d :: ds).length := hw2
            have := pre_drop_replaceAllF p r (d :: ds) hwA fuel cs 1 hcs Nat.one_pos h1w
            simpa using this (by simpa using hpre.2)
          have hwcc : isPre (d :: ds) (c :: cs) = true := by
            simp only [isPre, Bool.and_eq_true, beq_iff_eq]
            exact ⟨hpre.1, hpre2⟩
          rw [hocc.1] at hwcc
          exact Bool.noConfusion hwcc
        · exact absurd htail (by simp [ih _ hcs hocc.2])

theorem occurs_false_of_ne_true {p s : Chars} (h : ¬ occurs p s = true) :
    occurs p s = false := by
  revert h; cases occurs p s <;> simp

/-- C7: for every generic HTML string containing the personalization marker
(in either its internal form or its template form) the per-recipient
personalization of the worker with recipient name Asha yields a string with
zero occurrences of either marker form and at least one occurrence of Asha,
and with an empty recipient name the generic placeholder name Educator is
substituted for the marker instead. -/
theorem claim_C7 (g : Chars)
    (hmark : occurs greetingMarker g = true ∨ occurs recipientToken g = true) :
    occurs greetingMarker (personalizeHtml g "Asha") = false ∧
      occurs recipientToken (personalizeHtml g "Asha") = false ∧
      occurs "Asha".data (personalizeHtml g "Asha") = true ∧
      occurs "Educator".data (personalizeHtml g "") = true := by
  have hTne : recipientToken ≠ [] := by decide
  have hMne : greetingMarker ≠ [] := by decide
  have hg1tok : occurs recipientToken (replaceAll recipientToken greetingMarker g) = false := by
    rw [replaceAll]
    exact occurs_replaceAllF_elim recipientToken greetingMarker recipientToken hTne
      (by decide) (by decide) (by decide) (by decide) (fun _ h => h) g.length g (le_refl _)
  have hg1mark : occurs greetingMarker (replaceAll recipientToken greetingMarker g) = true := by
    by_cases ht : occurs recipientToken g = true
    · rw [replaceAll]
      exact occurs_replaceAllF_intro recipientToken greetingMarker hTne g.length g (le_refl _) ht
    · have hid : replaceAll recipientToken greetingMarker g = g := by
        rw [replaceAll]
        exact replaceAllF_id_of_not_occurs recipientToken greetingMarker g.length g (le_refl _)
          (occurs_false_of_ne_true ht)
      rw [hid]
      rcases hmark with hM | hT
      · exact hM
      · exact absurd hT ht
  refine ⟨?_, ?_, ?_, ?_⟩
  · show occurs greetingMarker
      (replaceAll greetingMarker (displayName "Asha").data
        (replaceAll recipientToken greetingMarker g)) = false
    rw [replaceAll]
    exact occurs_replaceAllF_elim greetingMarker (displayName "Asha").data greetingMarker hMne
      (by decide) (by decide) (by decide) (by decide) (fun _ h => h) _ _ (le_refl _)
  · show occurs recipientToken
      (replaceAll greetingMarker (displayName "Asha").data
        (replaceAll recipientToken greetingMarker g)) = false
    rw [replaceAll]
    exact occurs_replaceAllF_preserve greetingMarker (displayName "Asha").data recipientToken
      (by decide) (by decide) (by decide) (by decide) _ _ (le_refl _) hg1tok
  · show occurs "Asha".data
      (replaceAll greetingMarker (displayName "Asha").data
        (replaceAll recipientToken greetingMarker g)) = true
    have : ("Asha" : String).data = (displayName "Asha").data := by rfl
    rw [this, replaceAll]
    exact occurs_replaceAllF_intro greetingMarker (displayName "Asha").data hMne _ _
      (le_refl _) hg1mark
  · show occurs "Educator".data
      (replaceAll greetingMarker (displayName "").data
        (replaceAll recipientToken greetingMarker g)) = true
    have : ("Educator" : String).data = (displayName "").data := by rfl
    rw [this, replaceAll]
    exact occurs_replaceAllF_intro greetingMarker (displayName "").data hMne _ _
      (le_refl _) hg1mark

/-- Witness for C7: the claimed behaviour at a concrete generic HTML string
that contains the internal greeting marker. -/
theorem claim_C7_witness :
    (occurs greetingMarker c7WitnessHtml = true ∨
        occurs recipientToken c7WitnessHtml = true) ∧
      (occurs greetingMarker (personalizeHtml c7WitnessHtml "Asha") = false ∧
        occurs recipientToken (personalizeHtml c7WitnessHtml "Asha") = false ∧
        occurs "Asha".data (personalizeHtml c7WitnessHtml "Asha") = true ∧
        occurs "Educator".data (personalizeHtml c7WitnessHtml "") = true) :=
  ⟨Or.inl (by decide), claim_C7 c7WitnessHtml (Or.inl (by decide))⟩

theorem countWordsAux_true_eq (t : Chars) :
    countWordsAux true t = countWordsAux false (t.dropWhile (fun d => !pySpace d)) := by
  induction t with
  | nil => rfl
  | cons c cs ih =>
    by_cases hc : pySpace c = true
    · simp [countWordsAux, List.dropWhile, hc]
    · simp only [countWordsAux, List.dropWhile, hc, Bool.not_false, if_false]
      simp only [Bool.not_eq_true] at hc
      simp [hc, ih]

theorem pySplitF_length : ∀ fuel s, s.length ≤ fuel →
    (pySplitF fuel s).length = countWordsAux false s := by
  intro fuel
  induction fuel with
  | zero =>
    intro s hs
    have : s = [] := List.length_eq_zero.mp (Nat.le_zero.mp hs)
    subst this; rfl
  | succ fuel ih =>
    intro s hs
    cases s with
    | nil => rfl
    | cons c cs =>
      have hcs : cs.length ≤ fuel := by have := hs; simp at this; omega
      by_cases hc : pySpace c = true
      · simp [pySplitF, countWordsAux, hc, ih cs hcs]
      · have hdw : (cs.dropWhile (fun d => !pySpace d)).length ≤ fuel :=
          le_trans (List.Sublist.length_le (List.dropWhile_sublist _)) hcs
        simp [pySplitF, countWordsAux, hc, ih _ hdw, countWordsAux_true_eq]
        omega

theorem countWordsAux_true_le (t : Chars) : countWordsAux true t ≤ countWordsAux false t := by
  induction t with
  | nil => exact le_refl 0
  | cons c cs ih =>
    by_cases hc : pySpace c = true
    · simp [countWordsAux, hc]
    · simp [countWordsAux, hc]

theorem countWordsAux_false_le (t : Chars) :
    countWordsAux false t ≤ 1 + countWordsAux true t := by
  induction t with
  | nil => simp [countWordsAux]
  | cons c cs ih =>
    by_cases hc : pySpace c = true
    · simp [countWordsAux, hc]
    · simp [countWordsAux, hc]

theorem countWordsAux_sublist : ∀ {t s : Chars}, List.Sublist t s →
    ∀ bt bs : Bool, (bs = true → bt = true) →
      countWordsAux bt t ≤ countWordsAux bs s := by
  intro t s h
  induction h with
  | slnil => intro _ _ _; exact le_refl 0
  | @cons l₁ l₂ c h ih =>
    intro bt bs himp
    cases hc : pySpace c with
    | true => simpa [countWordsAux, hc] using ih bt false (by simp)
    | false =>
      have h3 : countWordsAux true l₁ ≤ countWordsAux true l₂ := ih true true (fun hx => hx)
      have h1 : countWordsAux bt l₁ ≤ countWordsAux false l₁ := by
        cases bt
        · exact le_refl _
        · exact countWordsAux_true_le l₁
      have h2 := countWordsAux_false_le l₁
      cases bs with
      | true =>
        have hbt := himp rfl
        subst hbt
        simp only [countWordsAux, hc]
        simpa using h3
      | false =>
        simp only [countWordsAux, hc]
        simp only [Bool.false_eq_true, if_false]
        omega
  | @cons₂ l₁ l₂ c h ih =>
    intro bt bs himp
    cases hc : pySpace c with
    | true => simpa [countWordsAux, hc] using ih false false (by simp)
    | false =>
      have h3 : countWordsAux true l₁ ≤ countWordsAux true l₂ := ih true true (fun hx => hx)
      cases bs with
      | true =>
        have hbt := himp rfl
        subst hbt
        simp only [countWordsAux, hc]
        simpa using h3
      | false =>
        simp only [countWordsAux, hc]
        cases bt <;> simp <;> omega

theorem countWordsAux_dropWhile_ws (s : Chars) :
    countWordsAux false (s.dropWhile pySpace) = countWordsAux false s := by
  induction s with
  | nil => rfl
  | cons c cs ih =>
    by_cases hc : pySpace c = true
    · simp [List.dropWhile, hc, countWordsAux, ih]
    · simp [List.dropWhile, hc]

theorem countWordsAux_collapseWsF : ∀ fuel s (b : Bool), s.length ≤ fuel →
    countWordsAux b (collapseWsF fuel s) = countWordsAux b s := by
  intro fuel
  induction fuel with
  | zero =>
    intro s b hs
    have : s = [] := List.length_eq_zero.mp (Nat.le_zero.mp hs)
    subst this; rfl
  | succ fuel ih =>
    intro s b hs
    cases s with
    | nil => rfl
    | cons c cs =>
      have hcs : cs.length ≤ fuel := by have := hs; simp at this; omega
      by_cases hc : pySpace c = true
      · have hdw : (cs.dropWhile pySpace).length ≤ fuel :=
          le_trans (List.Sublist.length_le (List.dropWhile_sublist _)) hcs
        simp only [collapseWsF, hc, if_true]
        have hsp : countWordsAux b (' ' :: collapseWsF fuel (cs.dropWhile pySpace)) =
            countWordsAux false (collapseWsF fuel (cs.dropWhile pySpace)) := by
          simp [countWordsAux, pySpace]
        rw [hsp, ih _ false hdw, countWordsAux_dropWhile_ws]
        simp [countWordsAux, hc]
      · have hc' : pySpace c = false := by revert hc; cases pySpace c <;> simp
        simp only [collapseWsF, hc', Bool.false_eq_true, if_false, countWordsAux]
        rw [ih _ true hcs]

theorem stripTagsF_sublist : ∀ fuel s, List.Sublist (stripTagsF fuel s) s := by
  intro fuel
  induction fuel with
  | zero => intro s; exact List.Sublist.refl s
  | succ fuel ih =>
    intro s
    cases s with
    | nil => exact List.Sublist.refl []
    | cons c cs =>
      by_cases hc : c = '<'
      · subst hc
        simp only [stripTagsF]
        by_cases hrun : ((cs.takeWhile (fun d => d != '>')).isEmpty ||
            (cs.drop (cs.takeWhile (fun d => d != '>')).length).isEmpty) = true
        · simp only [hrun, if_true]
          exact List.Sublist.cons₂ _ (ih cs)
        · simp only [hrun, if_false]
          exact List.Sublist.cons _ ((ih _).trans (List.drop_sublist _ _))
      · simp only [stripTagsF, hc, if_false]
        exact List.Sublist.cons₂ _ (ih cs)

theorem subPatsF_sublist (ps : List Pat) : ∀ fuel s, List.Sublist (subPatsF ps fuel s) s := by
  intro fuel
  induction fuel with
  | zero => intro s; exact List.Sublist.refl s
  | succ fuel ih =>
    intro s
    cases s with
    | nil => exact List.Sublist.refl []
    | cons c cs =>
      simp only [subPatsF]
      cases hm : matchPats ps (c :: cs) with
      | none => exact List.Sublist.cons₂ _ (ih cs)
      | some n =>
        cases n with
        | zero => exact List.Sublist.cons₂ _ (ih cs)
        | succ m => exact List.Sublist.cons _ ((ih _).trans (List.drop_sublist _ _))

theorem greetingOnlySub_sublist (s : Chars) : List.Sublist (greetingOnlySub s) s := by
  rw [greetingOnlySub]
  by_cases h : isLoneGreeting s = true
  · simp [h]
  · simp [h]

theorem pyStrip_sublist (s : Chars) : List.Sublist (pyStrip s) s := by
  rw [pyStrip]
  have h1 : List.Sublist (s.dropWhile pySpace) s := List.dropWhile_sublist _
  have h2 : List.Sublist ((s.dropWhile pySpace).reverse.dropWhile pySpace)
      (s.dropWhile pySpace).reverse := List.dropWhile_sublist _
  have h3 := List.reverse_sublist.mpr h2
  simpa using h3.trans (by simpa using List.reverse_sublist.mpr h1)

theorem hmbText_sublist (s : Chars) : List.Sublist
    (pyStrip (greetingOnlySub (subPats boilerPat4 (subPats boilerPat3 (subPats boilerPat2
      (subPats boilerPat1 (stripTags s))))))) s := by
  refine (pyStrip_sublist _).trans ((greetingOnlySub_sublist _).trans ?_)
  refine (subPatsF_sublist _ _ _).trans ((subPatsF_sublist _ _ _).trans ?_)
  refine (subPatsF_sublist _ _ _).trans ((subPatsF_sublist _ _ _).trans ?_)
  exact stripTagsF_sublist _ _

/-- The word count of the validator text never exceeds the word count of the
raw input: every pass only deletes characters, and deleting characters never
splits a whitespace-delimited word in two. -/
theorem hmb_words_le (s : Chars) :
    (pySplit (hmbText s)).length ≤ (pySplit s).length := by
  rw [pySplit, pySplit, pySplitF_length _ _ (le_refl _), pySplitF_length _ _ (le_refl _)]
  rw [hmbText, collapseWs, countWordsAux_collapseWsF _ _ false (le_refl _)]
  exact countWordsAux_sublist (hmbText_sublist s) false false (by simp)

theorem pySplitF_all_ws : ∀ fuel s, (∀ c ∈ s, pySpace c = true) → pySplitF fuel s = [] := by
  intro fuel
  induction fuel with
  | zero => intro s _; rfl
  | succ fuel ih =>
    intro s hs
    cases s with
    | nil => rfl
    | cons c cs =>
      have hc : pySpace c = true := hs c (by simp)
      simp only [pySplitF, hc, if_true]
      exact ih cs (fun d hd => hs d (by simp [hd]))

/-- C2 counterexample: the six-word plain sentence We are so very truly
glad. (26 characters) is rejected by has_meaningful_body because of the
30-character minimum, refuting the claim that every 6-word plain sentence
is accepted. -/
theorem claim_C2_counterexample :
    (pySplit "We are so very truly glad.".data).length = 6 ∧
      hasMeaningfulBody "We are so very truly glad.".data = false := by
  constructor
  · decide
  · decide

/-- C2 as amended: the validator returns true exactly when the input is
nonempty and the stripped text reaches 30 characters, 5 words and contains
an alphanumeric character; it rejects every input of at most 4
whitespace-separated words (hence the empty string and every
whitespace-only string), rejects the lone-greeting paragraph, rejects the
6-word sentence that falls short of 30 characters, and accepts a 6-word
sentence of 41 characters as well as the 40-character HTML paragraph with
5 distinct words. -/
theorem claim_C2_amended :
    (∀ s : Chars, (pySplit s).length ≤ 4 → hasMeaningfulBody s = false) ∧
      (∀ s : Chars, (∀ c ∈ s, pySpace c = true) → hasMeaningfulBody s = false) ∧
      hasMeaningfulBody [] = false ∧
      hasMeaningfulBody "<p>Hi John,</p>".data = false ∧
      hasMeaningfulBody "We are so very truly glad.".data = false ∧
      hasMeaningfulBody "Grading consumes all my weekday evenings.".data = true ∧
      hasMeaningfulBody "<p>Grading essays consumes my nights</p>".data = true ∧
      (∀ s : Chars, hasMeaningfulBody s = true ↔
        (s ≠ [] ∧ 30 ≤ (hmbText s).length ∧ 5 ≤ (pySplit (hmbText s)).length ∧
          (hmbText s).any isAlnumAscii = true)) := by
  have hfour : ∀ s : Chars, (pySplit s).length ≤ 4 → hasMeaningfulBody s = false := by
    intro s hs
    rw [hasMeaningfulBody]
    by_cases he : s.isEmpty
    · simp [he]
    · simp only [he, if_false]
      by_cases hlen : (hmbText s).length < 30
      · simp [hlen]
      · have hw : (pySplit (hmbText s)).length < 5 :=
          lt_of_le_of_lt (le_trans (hmb_words_le s) hs) (by omega)
        simp [hlen, hw]
  refine ⟨hfour, ?_, by decide, by decide, by decide, by decide, by decide, ?_⟩
  · intro s hs
    refine hfour s ?_
    rw [pySplit, pySplitF_all_ws _ _ hs]
    simp
  · intro s
    rw [hasMeaningfulBody]
    by_cases he : s.isEmpty
    · simp [he, List.isEmpty_iff.mp he]
    · simp only [he, if_false]
      have hne : s ≠ [] := by
        intro hcon; rw [hcon] at he; simp at he
      by_cases hlen : (hmbText s).length < 30
      · simp [hlen, hne]
      · by_cases hw : (pySplit (hmbText s)).length < 5
        · simp [hlen, hw, hne]
        · have hlen' : 30 ≤ (hmbText s).length := Nat.not_lt.mp hlen
          have hw' : 5 ≤ (pySplit (hmbText s)).length := Nat.not_lt.mp hw
          simp [hlen, hw, hne, hlen', hw']

/-- Witness for the universally quantified parts of C2: the 4-word sentence
only four words here is rejected. -/
theorem claim_C2_witness :
    (pySplit "only four words here".data).length ≤ 4 ∧
      hasMeaningfulBody "only four words here".data = false :=
  ⟨by decide, claim_C2_amended.1 _ (by decide)⟩

@[simp] theorem pushState_task (acc : WorkerRun) (t : Task) : (pushState acc t).task = t := rfl

@[simp] theorem pushState_states (acc : WorkerRun) (t : Task) :
    (pushState acc t).states = acc.states ++ [t] := rfl

@[simp] theorem pushState_logs (acc : WorkerRun) (t : Task) : (pushState acc t).logs = acc.logs := rfl

@[simp] theorem pushState_processed (acc : WorkerRun) (t : Task) :
    (pushState acc t).processed = acc.processed := rfl

@[simp] theorem pushState_gh (acc : WorkerRun) (t : Task) : (pushState acc t).gh = acc.gh := rfl

@[simp] theorem pushState_aborted (acc : WorkerRun) (t : Task) :
    (pushState acc t).aborted = acc.aborted := rfl

@[simp] theorem pushLog_task (acc : WorkerRun) (e : LogEntry) : (pushLog acc e).task = acc.task := rfl

@[simp] theorem pushLog_states (acc : WorkerRun) (e : LogEntry) :
    (pushLog acc e).states = acc.states := rfl

@[simp] theorem pushLog_logs (acc : WorkerRun) (e : LogEntry) :
    (pushLog acc e).logs = acc.logs ++ [e] := rfl

@[simp] theorem pushLog_processed (acc : WorkerRun) (e : LogEntry) :
    (pushLog acc e).processed = acc.processed := rfl

@[simp] theorem pushLog_gh (acc : WorkerRun) (e : LogEntry) : (pushLog acc e).gh = acc.gh := rfl

@[simp] theorem pushLog_aborted (acc : WorkerRun) (e : LogEntry) :
    (pushLog acc e).aborted = acc.aborted := rfl

theorem customStep_of_aborted (subject : String) (acc : WorkerRun)
    (re : Recipient × CustomEnv) (h : acc.aborted = true) :
    customStep subject acc re = acc := by
  rw [customStep, if_pos h]

theorem simpleStep_of_aborted (category subject : String) (acc : WorkerRun)
    (re : String × LoopEnv) (h : acc.aborted = true) :
    simpleStep category subject acc re = acc := by
  rw [simpleStep, if_pos h]

theorem foldl_of_aborted {α : Type} (f : WorkerRun → α → WorkerRun)
    (habort : ∀ acc re, acc.aborted = true → f acc re = acc) :
    ∀ (rs : List α) (acc : WorkerRun), acc.aborted = true → rs.foldl f acc = acc := by
  intro rs
  induction rs with
  | nil => intro acc _; rfl
  | cons r rs ih =>
    intro acc h
    rw [List.foldl_cons, habort acc r h]
    exact ih acc h

/-- Shape of one send_custom_task iteration on the task trace: starting
from a live accumulator, either one counter is bumped once, or — when the
first log append raises — a second failed increment follows. -/
theorem customStep_shape (subject : String) (acc : WorkerRun)
    (re : Recipient × CustomEnv) (ha : acc.aborted = false) :
    (∃ t1, incOne acc.task t1 ∧
      (customStep subject acc re).task = t1 ∧
      (customStep subject acc re).states = acc.states ++ [t1]) ∨
    (∃ t1, incOne acc.task t1 ∧
      (customStep subject acc re).task = { t1 with failed := t1.failed + 1 } ∧
      (customStep subject acc re).states = acc.states ++ [t1, { t1 with failed := t1.failed + 1 }]) := by
  simp only [customStep, ha, Bool.false_eq_true, if_false]
  split_ifs <;>
    first
      | (refine Or.inl ⟨_, Or.inl rfl, ?_, ?_⟩ <;> (simp; done))
      | (refine Or.inl ⟨_, Or.inr rfl, ?_, ?_⟩ <;> (simp; done))
      | (refine Or.inr ⟨_, Or.inl rfl, ?_, ?_⟩ <;> (simp; done))
      | (refine Or.inr ⟨_, Or.inr rfl, ?_, ?_⟩ <;> (simp; done))

/-- Shape of one send_greetings_task / send_product_task iteration. -/
theorem simpleStep_shape (category subject : String) (acc : WorkerRun)
    (re : String × LoopEnv) (ha : acc.aborted = false) :
    ∃ t1, incOne acc.task t1 ∧
      (simpleStep category subject acc re).task = t1 ∧
      (simpleStep category subject acc re).states = acc.states ++ [t1] := by
  simp only [simpleStep, ha, Bool.false_eq_true, if_false]
  split_ifs <;>
    first
      | (refine ⟨_, Or.inl rfl, ?_, ?_⟩ <;> (simp; done))
      | (refine ⟨_, Or.inr rfl, ?_, ?_⟩ <;> (simp; done))

theorem chain'_append_one {R : Task → Task → Prop} {l : List Task} {a b : Task}
    (h : List.Chain' R l) (hl : l.getLast? = some a) (hr : R a b) :
    List.Chain' R (l ++ [b]) := by
  rw [List.chain'_append]
  refine ⟨h, List.chain'_singleton b, ?_⟩
  intro x hx y hy
  rw [hl] at hx
  simp at hx hy
  subst hx; subst hy
  exact hr

theorem stepRel_of_incOne {a b : Task} (h : incOne a b) : stepRel a b := by
  rcases h with h | h <;> subst h <;> simp [stepRel]

theorem counterRel_of_stepRel {a b : Task} (h : stepRel a b) : counterRel a b := by
  obtain ⟨h1, _, _, h4⟩ := h
  rcases h4 with ⟨h5, h6⟩ | ⟨h5, h6⟩
  · exact ⟨h1, Or.inr (Or.inl ⟨h5, h6⟩)⟩
  · exact ⟨h1, Or.inr (Or.inr ⟨h5, h6⟩)⟩

theorem midInv_push1 {N : Nat} {acc res : WorkerRun} {t1 : Task}
    (h : midInv N acc) (hinc : incOne acc.task t1)
    (htask : res.task = t1) (hstates : res.states = acc.states ++ [t1]) :
    midInv N res := by
  obtain ⟨h1, h2, h3, h4, h5, h6⟩ := h
  have hrel : stepRel acc.task t1 := stepRel_of_incOne hinc
  have ht1 : t1.total = N ∧ t1.status = "running" ∧ t1.error = none := by
    rcases hinc with hh | hh <;> subst hh <;> exact ⟨h1, h2, h3⟩
  refine ⟨?_, ?_, ?_, ?_, ?_, ?_⟩
  · rw [htask]; exact ht1.1
  · rw [htask]; exact ht1.2.1
  · rw [htask]; exact ht1.2.2
  · rw [hstates, htask, List.getLast?_concat]
  · rw [hstates]
    intro t ht
    rcases List.mem_append.mp ht with h7 | h7
    · exact h5 t h7
    · simp at h7; subst h7; exact ht1
  · rw [hstates]
    exact chain'_append_one h6 h4 hrel

theorem midInv_push2 {N : Nat} {acc res : WorkerRun} {t1 t2 : Task}
    (h : midInv N acc) (hinc : incOne acc.task t1)
    (ht2 : t2 = { t1 with failed := t1.failed + 1 })
    (htask : res.task = t2) (hstates : res.states = acc.states ++ [t1, t2]) :
    midInv N res := by
  have hmid : midInv N (⟨t1, acc.states ++ [t1], [], [], [], false⟩ : WorkerRun) :=
    midInv_push1 h hinc rfl rfl
  have hmid2 : midInv N (⟨t2, (acc.states ++ [t1]) ++ [t2], [], [], [], false⟩ : WorkerRun) :=
    midInv_push1 hmid (Or.inr ht2) rfl rfl
  obtain ⟨h1, h2, h3, h4, h5, h6⟩ := hmid2
  have hs2 : res.states = (acc.states ++ [t1]) ++ [t2] := by
    rw [hstates, List.append_assoc]; rfl
  exact ⟨by rw [htask]; exact h1, by rw [htask]; exact h2, by rw [htask]; exact h3,
    by rw [hs2, htask]; exact h4, by rw [hs2]; exact h5, by rw [hs2]; exact h6⟩

theorem customStep_midInv (subject : String) (acc : WorkerRun) (re : Recipient × CustomEnv)
    (ha : acc.aborted = false) (N : Nat) (h : midInv N acc) :
    midInv N (customStep subject acc re) := by
  rcases customStep_shape subject acc re ha with ⟨t1, hinc, htask, hstates⟩ |
    ⟨t1, hinc, htask, hstates⟩
  · exact midInv_push1 h hinc htask hstates
  · exact midInv_push2 h hinc rfl htask hstates

theorem simpleStep_midInv (category subject : String) (acc : WorkerRun)
    (re : String × LoopEnv) (ha : acc.aborted = false) (N : Nat) (h : midInv N acc) :
    midInv N (simpleStep category subject acc re) := by
  obtain ⟨t1, hinc, htask, hstates⟩ := simpleStep_shape category subject acc re ha
  exact midInv_push1 h hinc htask hstates

theorem foldMidInv {α : Type} (f : WorkerRun → α → WorkerRun)
    (habort : ∀ acc re, acc.aborted = true → f acc re = acc)
    (hstep : ∀ acc re, acc.aborted = false → ∀ N, midInv N acc → midInv N (f acc re)) :
    ∀ (rs : List α) (acc : WorkerRun) (N : Nat), midInv N acc → midInv N (rs.foldl f acc) := by
  intro rs
  induction rs with
  | nil => intro acc N h; exact h
  | cons r rs ih =>
    intro acc N h
    rw [List.foldl_cons]
    by_cases ha : acc.aborted = true
    · rw [habort acc r ha]; exact ih acc N h
    · have ha' : acc.aborted = false := by revert ha; cases acc.aborted <;> simp
      exact ih _ N (hstep acc r ha' N h)

theorem customInit_midInv (gh0 : Chars) (n : Nat) : midInv n (customInit gh0 n) := by
  refine ⟨rfl, rfl, rfl, rfl, ?_, ?_⟩
  · intro t ht
    simp [customInit] at ht
    subst ht; exact ⟨rfl, rfl, rfl⟩
  · simp [customInit]

theorem sendTaskStep_shape (acc : Task × List Task) (ro : String × SendOutcome) :
    ∃ t1, incOne acc.1 t1 ∧ (sendTaskStep acc ro).1 = t1 ∧
      (sendTaskStep acc ro).2 = acc.2 ++ [t1] := by
  rcases ro with ⟨e, o⟩
  cases o
  · exact ⟨_, Or.inl rfl, rfl, rfl⟩
  · exact ⟨_, Or.inr rfl, rfl, rfl⟩

theorem sendTaskFold_midInv : ∀ (rs : List (String × SendOutcome))
    (acc : Task × List Task) (N : Nat),
    midInv N ⟨acc.1, acc.2, [], [], [], false⟩ →
    midInv N ⟨(rs.foldl sendTaskStep acc).1, (rs.foldl sendTaskStep acc).2, [], [], [], false⟩ := by
  intro rs
  induction rs with
  | nil => exact fun acc N h => h
  | cons r rs ih =>
    intro acc N h
    rw [List.foldl_cons]
    apply ih
    obtain ⟨t1, hinc, h1, h2⟩ := sendTaskStep_shape acc r
    exact midInv_push1 h hinc h1 h2

/-- The status word of every state reached during the loop is running, and
the finishing state is done or error: hence the chain of allowed
transitions. -/
theorem chain'_status_aux (fin : Task)
    (hfin : fin.status = "done" ∨ fin.status = "error") :
    ∀ mids : List Task, (∀ t ∈ mids, t.status = "running") →
      List.Chain' statusRel ((mids ++ [fin]).map Task.status) := by
  intro mids
  induction mids with
  | nil => intro _; simp
  | cons a l ih =>
    intro hall
    cases l with
    | nil =>
      simp only [List.cons_append, List.nil_append, List.map_cons, List.map_nil]
      rw [List.chain'_cons]
      refine ⟨Or.inr ⟨hall a (by simp), ?_⟩, List.chain'_singleton _⟩
      rcases hfin with h | h
      · exact Or.inr (Or.inl h)
      · exact Or.inr (Or.inr h)
    | cons b l' =>
      rw [List.cons_append, List.map_cons]
      have htail := ih (fun t ht => hall t (List.mem_cons_of_mem a ht))
      rw [List.cons_append, List.map_cons] at htail ⊢
      rw [List.chain'_cons]
      refine ⟨Or.inr ⟨hall a (by simp), Or.inl (hall b (by simp))⟩, htail⟩

theorem chain'_status_full {mids : List Task} {fin : Task}
    (hall : ∀ t ∈ mids, t.status = "running") (hne : mids ≠ [])
    (hfin : fin.status = "done" ∨ fin.status = "error") :
    List.Chain' statusRel ("pending" :: (mids ++ [fin]).map Task.status) := by
  obtain ⟨a, l, rfl⟩ := List.exists_cons_of_ne_nil hne
  rw [List.cons_append, List.map_cons, List.chain'_cons]
  refine ⟨Or.inl ⟨rfl, hall a (by simp)⟩, ?_⟩
  have := chain'_status_aux fin hfin (a :: l) hall
  rwa [List.cons_append, List.map_cons] at this

/-- Consolidated properties of a worker trace closed by a final done or
error state whose counters copy the last loop state. -/
theorem finale_props {N : Nat} {acc : WorkerRun} (hinv : midInv N acc) (fin : Task)
    (hfin : fin.status = "done" ∨ fin.status = "error")
    (hfc : fin.sent = acc.task.sent ∧ fin.failed = acc.task.failed ∧
      fin.total = acc.task.total) :
    (∀ t ∈ (pushState acc fin).states.dropLast, t.status = "running") ∧
      (pushState acc fin).states.getLast? = some (pushState acc fin).task ∧
      List.Chain' statusRel ("pending" :: (pushState acc fin).states.map Task.status) ∧
      List.Chain' counterRel (pushState acc fin).states ∧
      (∀ t ∈ (pushState acc fin).states, t.total = N) := by
  obtain ⟨h1, h2, h3, h4, h5, h6⟩ := hinv
  have hne : acc.states ≠ [] := by
    intro hcon; rw [hcon] at h4; simp at h4
  have hall : ∀ t ∈ acc.states, t.status = "running" := fun t ht => (h5 t ht).2.1
  refine ⟨?_, ?_, ?_, ?_, ?_⟩
  · simp only [pushState_states, List.dropLast_concat]
    exact hall
  · simp only [pushState_states, pushState_task, List.getLast?_concat]
  · simp only [pushState_states]
    exact chain'_status_full hall hne hfin
  · simp only [pushState_states]
    refine chain'_append_one (List.Chain'.imp ?_ h6) h4 ?_
    · exact fun a b hab => counterRel_of_stepRel hab
    · exact ⟨hfc.2.2, Or.inl ⟨hfc.1, hfc.2.1⟩⟩
  · simp only [pushState_states]
    intro t ht
    rcases List.mem_append.mp ht with h7 | h7
    · exact (h5 t h7).1
    · simp at h7; subst h7; rw [hfc.2.2]; exact h1

theorem customFold_midInv (gh : Chars) (subject : String)
    (rs : List (Recipient × CustomEnv)) :
    midInv rs.length (rs.foldl (customStep subject) (customInit gh rs.length)) :=
  foldMidInv (customStep subject)
    (fun acc re h => customStep_of_aborted subject acc re h)
    (fun acc re ha N h => customStep_midInv subject acc re ha N h)
    rs (customInit gh rs.length) rs.length (customInit_midInv gh rs.length)

theorem simpleFold_midInv (category subject : String) (rs : List (String × LoopEnv)) :
    midInv rs.length (rs.foldl (simpleStep category subject) (customInit [] rs.length)) :=
  foldMidInv (simpleStep category subject)
    (fun acc re h => simpleStep_of_aborted category subject acc re h)
    (fun acc re ha N h => simpleStep_midInv category subject acc re ha N h)
    rs (customInit [] rs.length) rs.length (customInit_midInv [] rs.length)

/-- C3: for send_custom_task and send_task, every state of the task trace
before the last one has status running, the trace follows only the allowed
transitions pending to running to done or error (never backward, and a task
that reached done or error is never mutated again — its state is the last
of the trace), and a fault inside the worker ends the task in status error
with a captured trace string. -/
theorem claim_C3 :
    (∀ (gh : Chars) (subject : String) (rs : List (Recipient × CustomEnv)),
      (∀ t ∈ (runCustomTask gh subject rs).states.dropLast, t.status = "running") ∧
        (runCustomTask gh subject rs).states.getLast? =
          some (runCustomTask gh subject rs).task ∧
        ((runCustomTask gh subject rs).task.status = "done" ∨
          ((runCustomTask gh subject rs).task.status = "error" ∧
            (runCustomTask gh subject rs).task.error ≠ none)) ∧
        List.Chain' statusRel
          ("pending" :: (runCustomTask gh subject rs).states.map Task.status)) ∧
    (∀ (cfg conn : Bool) (rs : List (String × SendOutcome)),
      (∀ t ∈ (runSendTask cfg conn rs).2.dropLast, t.status = "running") ∧
        (runSendTask cfg conn rs).2.getLast? = some (runSendTask cfg conn rs).1 ∧
        ((runSendTask cfg conn rs).1.status = "done" ∨
          ((runSendTask cfg conn rs).1.status = "error" ∧
            (runSendTask cfg conn rs).1.error ≠ none)) ∧
        List.Chain' statusRel ("pending" :: (runSendTask cfg conn rs).2.map Task.status)) := by
  constructor
  · intro gh subject rs
    have hinv := customFold_midInv gh subject rs
    set acc := rs.foldl (customStep subject) (customInit gh rs.length) with hacc
    by_cases hab : acc.aborted = true
    · have hrun : runCustomTask gh subject rs =
          pushState acc { acc.task with status := "error", error := some "Traceback (most recent call last)" } := by
        simp [runCustomTask, ← hacc, hab]
      rw [hrun]
      obtain ⟨p1, p2, p3, _, _⟩ := finale_props hinv
        { acc.task with status := "error", error := some "Traceback (most recent call last)" }
        (Or.inr rfl) ⟨rfl, rfl, rfl⟩
      exact ⟨p1, p2, Or.inr ⟨rfl, by simp⟩, p3⟩
    · have hrun : runCustomTask gh subject rs =
          pushState acc { acc.task with status := "done" } := by
        simp [runCustomTask, ← hacc, hab]
      rw [hrun]
      obtain ⟨p1, p2, p3, _, _⟩ := finale_props hinv
        { acc.task with status := "done" } (Or.inl rfl) ⟨rfl, rfl, rfl⟩
      exact ⟨p1, p2, Or.inl rfl, p3⟩
  · intro cfg conn rs
    cases cfg
    · refine ⟨?_, ?_, ?_, ?_⟩ <;>
        simp [runSendTask, statusRel, List.chain'_cons]
    · cases conn
      · refine ⟨?_, ?_, ?_, ?_⟩ <;>
          simp [runSendTask, statusRel, List.chain'_cons]
      · have hinv := sendTaskFold_midInv rs
          (⟨"running", rs.length, 0, 0, none⟩, [⟨"running", rs.length, 0, 0, none⟩])
          rs.length (customInit_midInv [] rs.length)
        set F := rs.foldl sendTaskStep
          (⟨"running", rs.length, 0, 0, none⟩, [⟨"running", rs.length, 0, 0, none⟩]) with hF
        obtain ⟨p1, p2, p3, _, _⟩ := finale_props hinv { F.1 with status := "done" }
          (Or.inl rfl) ⟨rfl, rfl, rfl⟩
        have h2' : (runSendTask true true rs).2 = F.2 ++ [{ F.1 with status := "done" }] := by
          simp [runSendTask, ← hF]
        have h1' : (runSendTask true true rs).1 = { F.1 with status := "done" } := by
          simp [runSendTask, ← hF]
        rw [h1', h2']
        exact ⟨p1, p2, Or.inl rfl, p3⟩

/-- C10: across the three cited workers the counters are monotonically
non-decreasing, every mutation of the task either increments exactly one of
sent and failed by exactly one or is a status transition leaving both
unchanged, and the total equals the recipient count in every state the
worker writes after it starts running.  In the source every one of these
mutations sits inside a with tasks_lock block. -/
theorem claim_C10 :
    (∀ (gh : Chars) (subject : String) (rs : List (Recipient × CustomEnv)),
      List.Chain' counterRel (runCustomTask gh subject rs).states ∧
        ∀ t ∈ (runCustomTask gh subject rs).states, t.total = rs.length) ∧
      (∀ (kind subject : String) (rs : List (String × LoopEnv)),
        List.Chain' counterRel (runGreetingsTask kind subject rs).states ∧
          ∀ t ∈ (runGreetingsTask kind subject rs).states, t.total = rs.length) ∧
      (∀ (found : Bool) (key subject : String) (rs : List (String × LoopEnv)),
        List.Chain' counterRel (runProductTask found key subject rs).states ∧
          ∀ t ∈ (runProductTask found key subject rs).states, t.total = rs.length) := by
  refine ⟨?_, ?_, ?_⟩
  · intro gh subject rs
    have hinv := customFold_midInv gh subject rs
    set acc := rs.foldl (customStep subject) (customInit gh rs.length) with hacc
    by_cases hab : acc.aborted = true
    · have hrun : runCustomTask gh subject rs =
          pushState acc { acc.task with status := "error", error := some "Traceback (most recent call last)" } := by
        simp [runCustomTask, ← hacc, hab]
      rw [hrun]
      obtain ⟨_, _, _, p4, p5⟩ := finale_props hinv
        { acc.task with status := "error", error := some "Traceback (most recent call last)" }
        (Or.inr rfl) ⟨rfl, rfl, rfl⟩
      exact ⟨p4, p5⟩
    · have hrun : runCustomTask gh subject rs =
          pushState acc { acc.task with status := "done" } := by
        simp [runCustomTask, ← hacc, hab]
      rw [hrun]
      obtain ⟨_, _, _, p4, p5⟩ := finale_props hinv
        { acc.task with status := "done" } (Or.inl rfl) ⟨rfl, rfl, rfl⟩
      exact ⟨p4, p5⟩
  · intro kind subject rs
    have hinv := simpleFold_midInv ("greeting-" ++ kind) subject rs
    set acc := rs.foldl (simpleStep ("greeting-" ++ kind) subject) (customInit [] rs.length)
      with hacc
    by_cases hab : acc.aborted = true
    · have hrun : runGreetingsTask kind subject rs =
          pushState acc { acc.task with status := "error", error := some "Traceback (most recent call last)" } := by
        simp [runGreetingsTask, ← hacc, hab]
      rw [hrun]
      obtain ⟨_, _, _, p4, p5⟩ := finale_props hinv
        { acc.task with status := "error", error := some "Traceback (most recent call last)" }
        (Or.inr rfl) ⟨rfl, rfl, rfl⟩
      exact ⟨p4, p5⟩
    · have hrun : runGreetingsTask kind subject rs =
          pushState acc { acc.task with status := "done" } := by
        simp [runGreetingsTask, ← hacc, hab]
      rw [hrun]
      obtain ⟨_, _, _, p4, p5⟩ := finale_props hinv
        { acc.task with status := "done" } (Or.inl rfl) ⟨rfl, rfl, rfl⟩
      exact ⟨p4, p5⟩
  · intro found key subject rs
    by_cases hp : found = false ∧ rs ≠ []
    · have hrun : runProductTask found key subject rs =
          pushState (customInit [] rs.length) { (customInit [] rs.length).task with status := "error", error := some "Traceback (most recent call last)" } := by
        simp only [runProductTask]
        rw [if_pos hp]
      rw [hrun]
      obtain ⟨_, _, _, p4, p5⟩ := finale_props (customInit_midInv [] rs.length)
        { (customInit [] rs.length).task with status := "error", error := some "Traceback (most recent call last)" }
        (Or.inr rfl) ⟨rfl, rfl, rfl⟩
      exact ⟨p4, p5⟩
    · have hinv := simpleFold_midInv ("product-" ++ key) subject rs
      set acc := rs.foldl (simpleStep ("product-" ++ key) subject) (customInit [] rs.length)
        with hacc
      by_cases hab : acc.aborted = true
      · have hrun : runProductTask found key subject rs =
            pushState acc { acc.task with status := "error", error := some "Traceback (most recent call last)" } := by
          simp only [runProductTask]
          rw [if_neg hp]
          simp [← hacc, hab]
        rw [hrun]
        obtain ⟨_, _, _, p4, p5⟩ := finale_props hinv
          { acc.task with status := "error", error := some "Traceback (most recent call last)" }
          (Or.inr rfl) ⟨rfl, rfl, rfl⟩
        exact ⟨p4, p5⟩
      · have hrun : runProductTask found key subject rs =
            pushState acc { acc.task with status := "done" } := by
          simp only [runProductTask]
          rw [if_neg hp]
          simp [← hacc, hab]
        rw [hrun]
        obtain ⟨_, _, _, p4, p5⟩ := finale_props hinv
          { acc.task with status := "done" } (Or.inl rfl) ⟨rfl, rfl, rfl⟩
        exact ⟨p4, p5⟩

/-- When the log append after the counter update does not raise, one
send_custom_task iteration performs exactly one counter increment and never
aborts. -/
theorem customStep_one_inc (subject : String) (acc : WorkerRun)
    (re : Recipient × CustomEnv) (ha : acc.aborted = false)
    (hm : re.2.logMainRaises = false) :
    ∃ t1, incOne acc.task t1 ∧
      (customStep subject acc re).task = t1 ∧
      (customStep subject acc re).states = acc.states ++ [t1] ∧
      (customStep subject acc re).aborted = false := by
  simp only [customStep, ha, hm, Bool.false_eq_true, if_false]
  split_ifs <;>
    first
      | (refine ⟨_, Or.inl rfl, ?_, ?_, ?_⟩ <;> (simp [ha]; done))
      | (refine ⟨_, Or.inr rfl, ?_, ?_, ?_⟩ <;> (simp [ha]; done))

theorem customFold_le (subject : String) (N : Nat) :
    ∀ (rs : List (Recipient × CustomEnv)) (acc : WorkerRun),
      (∀ p ∈ rs, p.2.logMainRaises = false) →
      acc.aborted = false →
      acc.task.total = N →
      acc.task.sent + acc.task.failed + rs.length ≤ N →
      (∀ t ∈ acc.states, t.sent + t.failed ≤ t.total) →
      (rs.foldl (customStep subject) acc).aborted = false ∧
        (rs.foldl (customStep subject) acc).task.total = N ∧
        (rs.foldl (customStep subject) acc).task.sent +
            (rs.foldl (customStep subject) acc).task.failed =
          acc.task.sent + acc.task.failed + rs.length ∧
        (∀ t ∈ (rs.foldl (customStep subject) acc).states,
          t.sent + t.failed ≤ t.total) := by
  intro rs
  induction rs with
  | nil =>
    intro acc _ ha ht _ hs
    exact ⟨ha, ht, by simp, hs⟩
  | cons r rs ih =>
    intro acc hall ha ht hbud hs
    have hm : r.2.logMainRaises = false := hall r (by simp)
    obtain ⟨t1, hinc, htask, hstates, hab⟩ := customStep_one_inc subject acc r ha hm
    have hlen : (r :: rs).length = rs.length + 1 := by simp
    have ht1tot : t1.total = N := by
      rcases hinc with h | h <;> subst h <;> simpa using ht
    have ht1sum : t1.sent + t1.failed = acc.task.sent + acc.task.failed + 1 := by
      rcases hinc with h | h <;> subst h <;> simp <;> omega
    have hbud1 : acc.task.sent + acc.task.failed + 1 ≤ N := by
      rw [hlen] at hbud; omega
    have hstates1 : ∀ t ∈ (customStep subject acc r).states,
        t.sent + t.failed ≤ t.total := by
      rw [hstates]
      intro t htm
      rcases List.mem_append.mp htm with h | h
      · exact hs t h
      · simp at h; subst h
        rw [ht1sum, ht1tot]
        exact hbud1
    rw [List.foldl_cons]
    have hrec := ih (customStep subject acc r) (fun p hp => hall p (by simp [hp])) hab
      (by rw [htask]; exact ht1tot)
      (by rw [htask, ht1sum]; rw [hlen] at hbud; omega)
      hstates1
    refine ⟨hrec.1, hrec.2.1, ?_, hrec.2.2.2⟩
    rw [hrec.2.2.1, htask, ht1sum, hlen]
    omega

theorem sendFold_le (N : Nat) :
    ∀ (rs : List (String × SendOutcome)) (acc : Task × List Task),
      acc.1.total = N →
      acc.1.sent + acc.1.failed + rs.length ≤ N →
      (∀ t ∈ acc.2, t.sent + t.failed ≤ t.total) →
      (rs.foldl sendTaskStep acc).1.total = N ∧
        (rs.foldl sendTaskStep acc).1.sent + (rs.foldl sendTaskStep acc).1.failed =
          acc.1.sent + acc.1.failed + rs.length ∧
        (∀ t ∈ (rs.foldl sendTaskStep acc).2, t.sent + t.failed ≤ t.total) := by
  intro rs
  induction rs with
  | nil =>
    intro acc ht _ hs
    exact ⟨ht, by simp, hs⟩
  | cons r rs ih =>
    intro acc ht hbud hs
    obtain ⟨t1, hinc, htask, hstates⟩ := sendTaskStep_shape acc r
    have hlen : (r :: rs).length = rs.length + 1 := by simp
    have ht1tot : t1.total = N := by
      rcases hinc with h | h <;> subst h <;> simpa using ht
    have ht1sum : t1.sent + t1.failed = acc.1.sent + acc.1.failed + 1 := by
      rcases hinc with h | h <;> subst h <;> simp <;> omega
    have hbud1 : acc.1.sent + acc.1.failed + 1 ≤ N := by
      rw [hlen] at hbud; omega
    have hstates1 : ∀ t ∈ (sendTaskStep acc r).2, t.sent + t.failed ≤ t.total := by
      rw [hstates]
      intro t htm
      rcases List.mem_append.mp htm with h | h
      · exact hs t h
      · simp at h; subst h
        rw [ht1sum, ht1tot]
        exact hbud1
    rw [List.foldl_cons]
    have hrec := ih (sendTaskStep acc r)
      (by rw [htask]; exact ht1tot)
      (by rw [htask, ht1sum]; rw [hlen] at hbud; omega)
      hstates1
    refine ⟨hrec.1, ?_, hrec.2.2⟩
    rw [hrec.2.1, htask, ht1sum, hlen]
    omega

/-- C1 as amended: provided no log append raises directly after a counter
update (each recipient then yields exactly one of the four outcomes), every
state of the trace satisfies sent + failed less-or-equal total, and once
status reaches done the counters sum to exactly total; for send_task, which
performs no log appends, the invariant holds unconditionally. -/
theorem claim_C1_amended :
    (∀ (gh : Chars) (subject : String) (rs : List (Recipient × CustomEnv)),
      (∀ p ∈ rs, p.2.logMainRaises = false) →
      (∀ t ∈ (runCustomTask gh subject rs).states, t.sent + t.failed ≤ t.total) ∧
        ((runCustomTask gh subject rs).task.status = "done" →
          (runCustomTask gh subject rs).task.sent +
              (runCustomTask gh subject rs).task.failed =
            (runCustomTask gh subject rs).task.total)) ∧
      (∀ (cfg conn : Bool) (rs : List (String × SendOutcome)),
        (∀ t ∈ (runSendTask cfg conn rs).2, t.sent + t.failed ≤ t.total) ∧
          ((runSendTask cfg conn rs).1.status = "done" →
            (runSendTask cfg conn rs).1.sent + (runSendTask cfg conn rs).1.failed =
              (runSendTask cfg conn rs).1.total)) := by
  constructor
  · intro gh subject rs hall
    have hfold := customFold_le subject rs.length rs (customInit gh rs.length) hall rfl rfl
      (by simp [customInit]) (by intro t htm; simp [customInit] at htm; subst htm; simp)
    set acc := rs.foldl (customStep subject) (customInit gh rs.length) with hacc
    have hab : acc.aborted = false := hfold.1
    have hrun : runCustomTask gh subject rs =
        pushState acc { acc.task with status := "done" } := by
      simp [runCustomTask, ← hacc, hab]
    rw [hrun]
    have hsum : acc.task.sent + acc.task.failed = rs.length := by
      have := hfold.2.2.1
      simpa [customInit] using this
    constructor
    · simp only [pushState_states]
      intro t htm
      rcases List.mem_append.mp htm with h | h
      · exact hfold.2.2.2 t h
      · simp at h; subst h
        simp [hsum, hfold.2.1]
    · intro _
      simp [hsum, hfold.2.1]
  · intro cfg conn rs
    cases cfg
    · constructor
      · intro t htm
        simp [runSendTask] at htm
        rcases htm with h | h <;> subst h <;> simp
      · intro hdone
        simp [runSendTask] at hdone
    · cases conn
      · constructor
        · intro t htm
          simp [runSendTask] at htm
          rcases htm with h | h <;> subst h <;> simp
        · intro hdone
          simp [runSendTask] at hdone
      · have hfold := sendFold_le rs.length rs
          (⟨"running", rs.length, 0, 0, none⟩, [⟨"running", rs.length, 0, 0, none⟩])
          rfl (by simp) (by intro t htm; simp at htm; subst htm; simp)
        set F := rs.foldl sendTaskStep
          (⟨"running", rs.length, 0, 0, none⟩, [⟨"running", rs.length, 0, 0, none⟩]) with hF
        have h2' : (runSendTask true true rs).2 = F.2 ++ [{ F.1 with status := "done" }] := by
          simp [runSendTask, ← hF]
        have h1' : (runSendTask true true rs).1 = { F.1 with status := "done" } := by
          simp [runSendTask, ← hF]
        have hsum : F.1.sent + F.1.failed = rs.length := by
          have := hfold.2.1
          simpa using this
        constructor
        · rw [h2']
          intro t htm
          rcases List.mem_append.mp htm with h | h
          · exact hfold.2.2 t h
          · simp at h; subst h
            simp [hsum, hfold.1]
        · intro _
          rw [h1']
          simp [hsum, hfold.1]

/-- C1 counterexample: a single passing recipient whose transport send
succeeds but whose sent log append raises is counted both as sent and as
failed by the per-recipient except handler, so the finished task reports
sent + failed = 2 with total = 1, violating the claimed invariant both
during and after the run. -/
theorem claim_C1_counterexample :
    (runCustomTask genericBodyHtml "Subject"
        [(⟨"a@x.com", "Asha"⟩, ⟨true, "", true, false, false⟩)]).task.status = "done" ∧
      (runCustomTask genericBodyHtml "Subject"
        [(⟨"a@x.com", "Asha"⟩, ⟨true, "", true, false, false⟩)]).task.total = 1 ∧
      (runCustomTask genericBodyHtml "Subject"
        [(⟨"a@x.com", "Asha"⟩, ⟨true, "", true, false, false⟩)]).task.sent = 1 ∧
      (runCustomTask genericBodyHtml "Subject"
        [(⟨"a@x.com", "Asha"⟩, ⟨true, "", true, false, false⟩)]).task.failed = 1 := by
  refine ⟨?_, ?_, ?_, ?_⟩ <;> decide

/-- Witness for C1 at a concrete clean run of one recipient. -/
theorem claim_C1_witness :
    (∀ p ∈ ([(⟨"a@x.com", "Asha"⟩, ⟨true, "", false, false, false⟩)] :
        List (Recipient × CustomEnv)), p.2.logMainRaises = false) ∧
      (∀ t ∈ (runCustomTask genericBodyHtml "Subject"
          [(⟨"a@x.com", "Asha"⟩, ⟨true, "", false, false, false⟩)]).states,
        t.sent + t.failed ≤ t.total) :=
  ⟨by decide,
    (claim_C1_amended.1 genericBodyHtml "Subject"
      [(⟨"a@x.com", "Asha"⟩, ⟨true, "", false, false, false⟩)] (by decide)).1⟩

theorem customStep_processed (subject : String) (acc : WorkerRun)
    (re : Recipient × CustomEnv) (ha : acc.aborted = false) :
    (customStep subject acc re).processed = acc.processed ++ [re.1.email] := by
  simp only [customStep, ha, Bool.false_eq_true, if_false]
  split_ifs <;> simp

/-- Whatever the environment does, the emails processed by
send_custom_task form a prefix of the recipient list, in input order. -/
theorem customFold_prefix (subject : String) :
    ∀ (rs : List (Recipient × CustomEnv)) (acc : WorkerRun),
      ∃ k, (rs.foldl (customStep subject) acc).processed =
        acc.processed ++ (rs.map (fun p => p.1.email)).take k := by
  intro rs
  induction rs with
  | nil => intro acc; exact ⟨0, by simp⟩
  | cons r rs ih =>
    intro acc
    rw [List.foldl_cons]
    by_cases ha : acc.aborted = true
    · rw [customStep_of_aborted subject acc r ha,
        foldl_of_aborted _ (fun a b h => customStep_of_aborted subject a b h) rs acc ha]
      exact ⟨0, by simp⟩
    · have ha' : acc.aborted = false := by revert ha; cases acc.aborted <;> simp
      obtain ⟨k, hk⟩ := ih (customStep subject acc r)
      refine ⟨k + 1, ?_⟩
      rw [hk, customStep_processed subject acc r ha']
      simp

theorem customStep_clean (subject : String) (acc : WorkerRun)
    (re : Recipient × CustomEnv) (ha : acc.aborted = false)
    (hm : re.2.logMainRaises = false) (hsk : re.2.logSkipRaises = false) :
    (customStep subject acc re).aborted = false ∧
      (customStep subject acc re).processed = acc.processed ++ [re.1.email] ∧
      ∃ st : String, (customStep subject acc re).logs =
        acc.logs ++ [⟨re.1.email, "custom", subject, st⟩] := by
  simp only [customStep, ha, hm, hsk, Bool.false_eq_true, if_false]
  split_ifs
  · exact ⟨by simp [ha], by simp, "skipped-empty-body", by simp⟩
  · exact ⟨by simp [ha], by simp, "sent", by simp⟩
  · exact ⟨by simp [ha], by simp, "failed: " ++ re.2.sendErr, by simp⟩

theorem customFold_clean (subject : String) :
    ∀ (rs : List (Recipient × CustomEnv)) (acc : WorkerRun),
      acc.aborted = false →
      (∀ p ∈ rs, p.2.logMainRaises = false ∧ p.2.logSkipRaises = false) →
      (rs.foldl (customStep subject) acc).aborted = false ∧
        (rs.foldl (customStep subject) acc).processed =
          acc.processed ++ rs.map (fun p => p.1.email) ∧
        (rs.foldl (customStep subject) acc).logs.map LogEntry.email =
          acc.logs.map LogEntry.email ++ rs.map (fun p => p.1.email) := by
  intro rs
  induction rs with
  | nil => intro acc ha _; exact ⟨ha, by simp, by simp⟩
  | cons r rs ih =>
    intro acc ha hall
    obtain ⟨hab, hproc, st, hlogs⟩ :=
      customStep_clean subject acc r ha (hall r (by simp)).1 (hall r (by simp)).2
    rw [List.foldl_cons]
    obtain ⟨h1, h2, h3⟩ := ih (customStep subject acc r) hab
      (fun p hp => hall p (by simp [hp]))
    refine ⟨h1, ?_, ?_⟩
    · rw [h2, hproc]
      simp
    · rw [h3, hlogs]
      simp

theorem simpleStep_processed (category subject : String) (acc : WorkerRun)
    (re : String × LoopEnv) (ha : acc.aborted = false) :
    (simpleStep category subject acc re).processed = acc.processed ++ [re.1] := by
  simp only [simpleStep, ha, Bool.false_eq_true, if_false]
  split_ifs <;> simp

/-- Whatever the environment does, the emails processed by
send_greetings_task form a prefix of the recipient list, in input order. -/
theorem simpleFold_prefix (category subject : String) :
    ∀ (rs : List (String × LoopEnv)) (acc : WorkerRun),
      ∃ k, (rs.foldl (simpleStep category subject) acc).processed =
        acc.processed ++ (rs.map (fun p => p.1)).take k := by
  intro rs
  induction rs with
  | nil => intro acc; exact ⟨0, by simp⟩
  | cons r rs ih =>
    intro acc
    rw [List.foldl_cons]
    by_cases ha : acc.aborted = true
    · rw [simpleStep_of_aborted category subject acc r ha,
        foldl_of_aborted _ (fun a b h => simpleStep_of_aborted category subject a b h) rs acc ha]
      exact ⟨0, by simp⟩
    · have ha' : acc.aborted = false := by revert ha; cases acc.aborted <;> simp
      obtain ⟨k, hk⟩ := ih (simpleStep category subject acc r)
      refine ⟨k + 1, ?_⟩
      rw [hk, simpleStep_processed category subject acc r ha']
      simp

theorem simpleStep_clean (category subject : String) (acc : WorkerRun)
    (re : String × LoopEnv) (ha : acc.aborted = false)
    (hl : re.2.logRaises = false) :
    (simpleStep category subject acc re).aborted = false ∧
      (simpleStep category subject acc re).processed = acc.processed ++ [re.1] ∧
      ∃ st : String, (simpleStep category subject acc re).logs =
        acc.logs ++ [⟨re.1, category, subject, st⟩] := by
  simp only [simpleStep, ha, hl, Bool.false_eq_true, if_false]
  split_ifs
  · exact ⟨by simp [ha], by simp, "sent", by simp⟩
  · exact ⟨by simp [ha], by simp, "failed: " ++ re.2.sendErr, by simp⟩

theorem simpleFold_clean (category subject : String) :
    ∀ (rs : List (String × LoopEnv)) (acc : WorkerRun),
      acc.aborted = false →
      (∀ p ∈ rs, p.2.logRaises = false) →
      (rs.foldl (simpleStep category subject) acc).aborted = false ∧
        (rs.foldl (simpleStep category subject) acc).processed =
          acc.processed ++ rs.map (fun p => p.1) ∧
        (rs.foldl (simpleStep category subject) acc).logs.map LogEntry.email =
          acc.logs.map LogEntry.email ++ rs.map (fun p => p.1) := by
  intro rs
  induction rs with
  | nil => intro acc ha _; exact ⟨ha, by simp, by simp⟩
  | cons r rs ih =>
    intro acc ha hall
    obtain ⟨hab, hproc, st, hlogs⟩ :=
      simpleStep_clean category subject acc r ha (hall r (by simp))
    rw [List.foldl_cons]
    obtain ⟨h1, h2, h3⟩ := ih (simpleStep category subject acc r) hab
      (fun p hp => hall p (by simp [hp]))
    refine ⟨h1, ?_, ?_⟩
    · rw [h2, hproc]
      simp
    · rw [h3, hlogs]
      simp

/-- C9 as amended, for both cited workers: recipients are processed
strictly in input order (the processed emails always form a prefix of the
input list); provided the log appends do not raise, every recipient —
including every delivery failure and, in send_custom_task, every
validation rejection — is processed, gets exactly one log row, and the
task finishes with status done; a raising log append instead aborts the
remaining loop (in send_custom_task only the one inside the per-recipient
failure handler escapes; in send_greetings_task any raising log append
does, as its loop has no per-recipient handler). -/
theorem claim_C9_amended :
    (∀ (gh : Chars) (subject : String) (rs : List (Recipient × CustomEnv)),
      (∃ k, (runCustomTask gh subject rs).processed =
        (rs.map (fun p => p.1.email)).take k) ∧
        ((∀ p ∈ rs, p.2.logMainRaises = false ∧ p.2.logSkipRaises = false) →
          (runCustomTask gh subject rs).processed = rs.map (fun p => p.1.email) ∧
            (runCustomTask gh subject rs).logs.map LogEntry.email =
              rs.map (fun p => p.1.email) ∧
            (runCustomTask gh subject rs).task.status = "done")) ∧
    (∀ (kind subject : String) (rs : List (String × LoopEnv)),
      (∃ k, (runGreetingsTask kind subject rs).processed =
        (rs.map (fun p => p.1)).take k) ∧
        ((∀ p ∈ rs, p.2.logRaises = false) →
          (runGreetingsTask kind subject rs).processed = rs.map (fun p => p.1) ∧
            (runGreetingsTask kind subject rs).logs.map LogEntry.email =
              rs.map (fun p => p.1) ∧
            (runGreetingsTask kind subject rs).task.status = "done")) := by
  constructor
  · intro gh subject rs
    set acc := rs.foldl (customStep subject) (customInit gh rs.length) with hacc
    have hproc : (runCustomTask gh subject rs).processed = acc.processed := by
      by_cases hab : acc.aborted = true <;> simp [runCustomTask, ← hacc, hab]
    have hlogs : (runCustomTask gh subject rs).logs = acc.logs := by
      by_cases hab : acc.aborted = true <;> simp [runCustomTask, ← hacc, hab]
    constructor
    · obtain ⟨k, hk⟩ := customFold_prefix subject rs (customInit gh rs.length)
      refine ⟨k, ?_⟩
      rw [hproc, ← hacc] at *
      rw [hk]
      simp [customInit]
    · intro hall
      obtain ⟨h1, h2, h3⟩ := customFold_clean subject rs (customInit gh rs.length) rfl hall
      rw [← hacc] at h1 h2 h3
      have hrun : runCustomTask gh subject rs =
          pushState acc { acc.task with status := "done" } := by
        simp [runCustomTask, ← hacc, h1]
      refine ⟨?_, ?_, ?_⟩
      · rw [hproc, h2]; simp [customInit]
      · rw [hlogs, h3]; simp [customInit]
      · rw [hrun]; rfl
  · intro kind subject rs
    set acc := rs.foldl (simpleStep ("greeting-" ++ kind) subject)
      (customInit [] rs.length) with hacc
    have hproc : (runGreetingsTask kind subject rs).processed = acc.processed := by
      by_cases hab : acc.aborted = true <;> simp [runGreetingsTask, ← hacc, hab]
    have hlogs : (runGreetingsTask kind subject rs).logs = acc.logs := by
      by_cases hab : acc.aborted = true <;> simp [runGreetingsTask, ← hacc, hab]
    constructor
    · obtain ⟨k, hk⟩ :=
        simpleFold_prefix ("greeting-" ++ kind) subject rs (customInit [] rs.length)
      refine ⟨k, ?_⟩
      rw [hproc, ← hacc] at *
      rw [hk]
      simp [customInit]
    · intro hall
      obtain ⟨h1, h2, h3⟩ :=
        simpleFold_clean ("greeting-" ++ kind) subject rs (customInit [] rs.length) rfl hall
      rw [← hacc] at h1 h2 h3
      have hrun : runGreetingsTask kind subject rs =
          pushState acc { acc.task with status := "done" } := by
        simp [runGreetingsTask, ← hacc, h1]
      refine ⟨?_, ?_, ?_⟩
      · rw [hproc, h2]; simp [customInit]
      · rw [hlogs, h3]; simp [customInit]
      · rw [hrun]; rfl

/-- C9 counterexample, for both cited workers: in send_custom_task a
delivery failure whose failure log append raises, followed by a raising
log append inside the except handler, aborts the task; in
send_greetings_task a single raising log append does so directly (its loop
has no per-recipient handler): the second recipient is never processed and
the task ends in error, refuting never aborts processing of the remaining
recipients. -/
theorem claim_C9_counterexample :
    (runCustomTask genericBodyHtml "Subject"
        [(⟨"a@x.com", "Asha"⟩, ⟨false, "boom", true, true, false⟩),
          (⟨"b@x.com", "Bo"⟩, ⟨true, "", false, false, false⟩)]).processed =
      ["a@x.com"] ∧
      (runCustomTask genericBodyHtml "Subject"
        [(⟨"a@x.com", "Asha"⟩, ⟨false, "boom", true, true, false⟩),
          (⟨"b@x.com", "Bo"⟩, ⟨true, "", false, false, false⟩)]).task.status =
        "error" ∧
      (runGreetingsTask "followup" "Subject"
        [("a@x.com", ⟨false, "boom", true⟩),
          ("b@x.com", ⟨true, "", false⟩)]).processed = ["a@x.com"] ∧
      (runGreetingsTask "followup" "Subject"
        [("a@x.com", ⟨false, "boom", true⟩),
          ("b@x.com", ⟨true, "", false⟩)]).task.status = "error" := by
  refine ⟨?_, ?_, ?_, ?_⟩ <;> decide

/-- Witness for C9 at concrete clean two-recipient runs of both workers,
each with one delivery failure. -/
theorem claim_C9_witness :
    (∀ p ∈ ([(⟨"a@x.com", "Asha"⟩, ⟨true, "", false, false, false⟩),
        (⟨"b@x.com", "Bo"⟩, ⟨false, "refused", false, false, false⟩)] :
        List (Recipient × CustomEnv)),
      p.2.logMainRaises = false ∧ p.2.logSkipRaises = false) ∧
      (runCustomTask genericBodyHtml "Subject"
          [(⟨"a@x.com", "Asha"⟩, ⟨true, "", false, false, false⟩),
            (⟨"b@x.com", "Bo"⟩, ⟨false, "refused", false, false, false⟩)]).processed =
        ["a@x.com", "b@x.com"] ∧
      (runCustomTask genericBodyHtml "Subject"
          [(⟨"a@x.com", "Asha"⟩, ⟨true, "", false, false, false⟩),
            (⟨"b@x.com", "Bo"⟩, ⟨false, "refused", false, false, false⟩)]).task.status =
        "done" ∧
      (∀ p ∈ ([("a@x.com", ⟨true, "", false⟩), ("b@x.com", ⟨false, "refused", false⟩)] :
          List (String × LoopEnv)), p.2.logRaises = false) ∧
      (runGreetingsTask "followup" "Subject"
          [("a@x.com", ⟨true, "", false⟩),
            ("b@x.com", ⟨false, "refused", false⟩)]).processed =
        ["a@x.com", "b@x.com"] ∧
      (runGreetingsTask "followup" "Subject"
          [("a@x.com", ⟨true, "", false⟩),
            ("b@x.com", ⟨false, "refused", false⟩)]).task.status = "done" := by
  refine ⟨by decide, ?_, ?_, by decide, ?_, ?_⟩
  · have := (claim_C9_amended.1 genericBodyHtml "Subject"
      [(⟨"a@x.com", "Asha"⟩, ⟨true, "", false, false, false⟩),
        (⟨"b@x.com", "Bo"⟩, ⟨false, "refused", false, false, false⟩)]).2 (by decide)
    exact this.1
  · have := (claim_C9_amended.1 genericBodyHtml "Subject"
      [(⟨"a@x.com", "Asha"⟩, ⟨true, "", false, false, false⟩),
        (⟨"b@x.com", "Bo"⟩, ⟨false, "refused", false, false, false⟩)]).2 (by decide)
    exact this.2.2
  · have := (claim_C9_amended.2 "followup" "Subject"
      [("a@x.com", ⟨true, "", false⟩), ("b@x.com", ⟨false, "refused", false⟩)]).2 (by decide)
    exact this.1
  · have := (claim_C9_amended.2 "followup" "Subject"
      [("a@x.com", ⟨true, "", false⟩), ("b@x.com", ⟨false, "refused", false⟩)]).2 (by decide)
    exact this.2.2

/-- C4 counterexample: with the SMTP variables unset the configuration
check fails, yet POST /start-send still creates the task and spawns the
worker — the task map grows and a worker is started — refuting the claim
that the error is surfaced immediately and no task is ever created.  The
worker then fails, moving the created task to error. -/
theorem claim_C4_counterexample :
    smtpConfigured ⟨none, none, none⟩ = false ∧
      (startSend "a@x.com" false "t1" []).1 = [("t1", initTask 1)] ∧
      (startSend "a@x.com" false "t1" []).2 = some ("t1", ["a@x.com"]) ∧
      (runSendTask (smtpConfigured ⟨none, none, none⟩) true
          [("a@x.com", SendOutcome.ok)]).1.status = "error" := by
  refine ⟨?_, ?_, ?_, ?_⟩ <;> decide

theorem customStep_allfail (subject : String) (acc : WorkerRun)
    (re : Recipient × CustomEnv) (ha : acc.aborted = false)
    (hs : re.2.sendOk = false) (hm : re.2.logMainRaises = false)
    (hsk : re.2.logSkipRaises = false) :
    (customStep subject acc re).aborted = false ∧
      (customStep subject acc re).task.sent = acc.task.sent ∧
      (customStep subject acc re).task.failed = acc.task.failed + 1 ∧
      (customStep subject acc re).task.status = acc.task.status ∧
      (customStep subject acc re).task.total = acc.task.total := by
  simp only [customStep, ha, hs, hm, hsk, Bool.false_eq_true, if_false]
  split_ifs <;> simp [ha]

/-- A send_custom_task run in which every send fails — the behaviour under
missing SMTP credentials, since mailer.utils.send_email_with_attachments
catches the transport exception and returns (False, error) — counts one
failure per recipient and never raises. -/
theorem customFold_allfail (subject : String) :
    ∀ (rs : List (Recipient × CustomEnv)) (acc : WorkerRun),
      acc.aborted = false →
      (∀ p ∈ rs, p.2.sendOk = false ∧ p.2.logMainRaises = false ∧
        p.2.logSkipRaises = false) →
      (rs.foldl (customStep subject) acc).aborted = false ∧
        (rs.foldl (customStep subject) acc).task.sent = acc.task.sent ∧
        (rs.foldl (customStep subject) acc).task.failed =
          acc.task.failed + rs.length ∧
        (rs.foldl (customStep subject) acc).task.status = acc.task.status ∧
        (rs.foldl (customStep subject) acc).task.total = acc.task.total := by
  intro rs
  induction rs with
  | nil => intro acc ha _; exact ⟨ha, rfl, rfl, rfl, rfl⟩
  | cons r rs ih =>
    intro acc ha hall
    obtain ⟨hr1, hr2, hr3⟩ := hall r (by simp)
    obtain ⟨hab, hsent, hfail, hstat, htot⟩ :=
      customStep_allfail subject acc r ha hr1 hr2 hr3
    rw [List.foldl_cons]
    obtain ⟨h1, h2, h3, h4, h5⟩ := ih (customStep subject acc r) hab
      (fun p hp => hall p (by simp [hp]))
    refine ⟨h1, by rw [h2, hsent], by rw [h3, hfail, List.length_cons]; omega,
      by rw [h4, hstat], by rw [h5, htot]⟩

/-- C4 as amended: neither background bulk-send handler performs an SMTP
configuration check — with missing credentials the pending task is still
created and the worker spawned.  On the /start-send path the worker
send_task raises RuntimeError from its own check, leaving the task in
status error with a captured trace and zero counters.  On the
/custom-start-send path neither the handler nor send_custom_task checks at
all: every send fails inside mailer.utils (which catches the transport
exception), so the task ends in status done with sent = 0 and
failed = total, and the configuration error is never surfaced.  Only the
synchronous /send path and /test-smtp surface the error without a task. -/
theorem claim_C4_amended :
    (∀ (env : SmtpEnv) (raw : String) (tid : String) (tasks : List (String × Task))
      (conn : Bool) (outs : List (String × SendOutcome)),
      smtpConfigured env = false →
      parseEmails raw ≠ [] →
      (startSend raw false tid tasks).1 =
          tasks ++ [(tid, initTask (parseEmails raw).length)] ∧
        (startSend raw false tid tasks).2 = some (tid, parseEmails raw) ∧
        (runSendTask (smtpConfigured env) conn outs).1.status = "error" ∧
        (runSendTask (smtpConfigured env) conn outs).1.error ≠ none ∧
        (runSendTask (smtpConfigured env) conn outs).1.sent = 0 ∧
        (runSendTask (smtpConfigured env) conn outs).1.failed = 0) ∧
    (∀ (env : SmtpEnv) (data frag : String) (tid : String)
      (tasks : List (String × Task)),
      smtpConfigured env = false →
      parseRecipientData data ≠ [] →
      frag ≠ "" →
      hasMeaningfulBody frag.data = true →
      customStartSend data frag "" false tid tasks =
        (tasks ++ [(tid, initTask (parseRecipientData data).length)],
          some (tid, parseRecipientData data))) ∧
    (∀ (gh : Chars) (subject : String) (rs : List (Recipient × CustomEnv)),
      (∀ p ∈ rs, p.2.sendOk = false ∧ p.2.logMainRaises = false ∧
        p.2.logSkipRaises = false) →
      (runCustomTask gh subject rs).task.status = "done" ∧
        (runCustomTask gh subject rs).task.sent = 0 ∧
        (runCustomTask gh subject rs).task.failed = rs.length ∧
        (runCustomTask gh subject rs).task.total = rs.length) := by
  refine ⟨?_, ?_, ?_⟩
  · intro env raw tid tasks conn outs hcfg hne
    have hemp : (parseEmails raw).isEmpty = false := by
      cases h : parseEmails raw
      · exact absurd h hne
      · rfl
    refine ⟨?_, ?_, ?_, ?_, ?_, ?_⟩
    · simp [startSend, hemp]
    · simp [startSend, hemp]
    · rw [hcfg]; simp [runSendTask]
    · rw [hcfg]; simp [runSendTask]
    · rw [hcfg]; simp [runSendTask]
    · rw [hcfg]; simp [runSendTask]
  · intro env data frag tid tasks _ hrec hfr hmb
    have hemp : (parseRecipientData data).isEmpty = false := by
      cases h : parseRecipientData data
      · exact absurd h hrec
      · rfl
    simp [customStartSend, hemp, hfr, hmb]
  · intro gh subject rs hall
    obtain ⟨hab, hsent, hfail, hstat, htot⟩ :=
      customFold_allfail subject rs (customInit gh rs.length) rfl hall
    have hrun : runCustomTask gh subject rs =
        pushState (rs.foldl (customStep subject) (customInit gh rs.length))
          { (rs.foldl (customStep subject) (customInit gh rs.length)).task with
            status := "done" } := by
      simp [runCustomTask, hab]
    rw [hrun]
    refine ⟨rfl, ?_, ?_, ?_⟩
    · simpa [customInit] using hsent
    · simpa [customInit] using hfail
    · simpa [customInit] using htot

/-- Witness for C4: an environment with an unset server, a one-line
recipient list for each handler, and an all-fail one-recipient worker
run. -/
theorem claim_C4_witness :
    smtpConfigured ⟨none, some "user@example.com", some "pw"⟩ = false ∧
      parseEmails "a@x.com" ≠ [] ∧
      (startSend "a@x.com" false "t1" []).1 =
        [] ++ [("t1", initTask (parseEmails "a@x.com").length)] ∧
      (runSendTask (smtpConfigured ⟨none, some "user@example.com", some "pw"⟩)
          true []).1.status = "error" ∧
      customStartSend "a@x.com||Asha"
          "Grading essays consumes entire weekends for educators." "" false "t2" [] =
        ([] ++ [("t2", initTask (parseRecipientData "a@x.com||Asha").length)],
          some ("t2", parseRecipientData "a@x.com||Asha")) ∧
      (runCustomTask genericBodyHtml "Subject"
          [(⟨"a@x.com", "Asha"⟩,
            ⟨false, "SMTPServerDisconnected", false, false, false⟩)]).task.status =
        "done" ∧
      (runCustomTask genericBodyHtml "Subject"
          [(⟨"a@x.com", "Asha"⟩,
            ⟨false, "SMTPServerDisconnected", false, false, false⟩)]).task.failed = 1 :=
  ⟨by decide, by decide,
    (claim_C4_amended.1 ⟨none, some "user@example.com", some "pw"⟩ "a@x.com" "t1" [] true []
      (by decide) (by decide)).1,
    (claim_C4_amended.1 ⟨none, some "user@example.com", some "pw"⟩ "a@x.com" "t1" [] true []
      (by decide) (by decide)).2.2.1,
    claim_C4_amended.2.1 ⟨none, some "user@example.com", some "pw"⟩ "a@x.com||Asha"
      "Grading essays consumes entire weekends for educators." "t2" []
      (by decide) (by decide) (by decide) (by decide),
    (claim_C4_amended.2.2 genericBodyHtml "Subject"
      [(⟨"a@x.com", "Asha"⟩, ⟨false, "SMTPServerDisconnected", false, false, false⟩)]
      (by decide)).1,
    (claim_C4_amended.2.2 genericBodyHtml "Subject"
      [(⟨"a@x.com", "Asha"⟩, ⟨false, "SMTPServerDisconnected", false, false, false⟩)]
      (by decide)).2.2.1⟩

theorem dedupFirstF_sublist : ∀ (fuel : Nat) (l : List String),
    List.Sublist (dedupFirstF fuel l) l := by
  intro fuel
  induction fuel with
  | zero => intro l; exact List.Sublist.refl l
  | succ fuel ih =>
    intro l
    cases l with
    | nil => exact List.Sublist.refl []
    | cons x xs =>
      exact List.Sublist.cons₂ x ((ih _).trans (List.filter_sublist _))

theorem dedupFirstF_complete : ∀ (fuel : Nat) (l : List String) (y : String),
    l.length ≤ fuel → y ∈ l → y ∈ dedupFirstF fuel l := by
  intro fuel
  induction fuel with
  | zero =>
    intro l y hl hy
    have : l = [] := List.length_eq_zero.mp (Nat.le_zero.mp hl)
    subst this; simp at hy
  | succ fuel ih =>
    intro l y hl hy
    cases l with
    | nil => simp at hy
    | cons x xs =>
      by_cases hxy : y = x
      · subst hxy; simp [dedupFirstF]
      · have hyxs : y ∈ xs := by
          rcases List.mem_cons.mp hy with h | h
          · exact absurd h hxy
          · exact h
        have hyf : y ∈ xs.filter (fun z => z != x) := by
          rw [List.mem_filter]
          exact ⟨hyxs, by simp [hxy]⟩
        have hlf : (xs.filter (fun z => z != x)).length ≤ fuel := by
          have h1 := List.length_filter_le (fun z => z != x) xs
          have h2 : xs.length ≤ fuel := by simp at hl; omega
          omega
        simp only [dedupFirstF]
        exact List.mem_cons_of_mem x (ih _ y hlf hyf)

theorem dedupFirstF_nodup : ∀ (fuel : Nat) (l : List String),
    l.length ≤ fuel → (dedupFirstF fuel l).Nodup := by
  intro fuel
  induction fuel with
  | zero =>
    intro l hl
    have : l = [] := List.length_eq_zero.mp (Nat.le_zero.mp hl)
    subst this; exact List.nodup_nil
  | succ fuel ih =>
    intro l hl
    cases l with
    | nil => exact List.nodup_nil
    | cons x xs =>
      simp only [dedupFirstF]
      rw [List.nodup_cons]
      have hlf : (xs.filter (fun z => z != x)).length ≤ fuel := by
        have h1 := List.length_filter_le (fun z => z != x) xs
        have h2 : xs.length ≤ fuel := by simp at hl; omega
        omega
      refine ⟨?_, ih _ hlf⟩
      intro hx
      have := (dedupFirstF_sublist fuel _).subset hx
      rw [List.mem_filter] at this
      simp at this

/-- C6 counterexample: a whitespace-only cell in the email column survives
dropna and strips to the empty string, which the extractor keeps — the
claimed dropping of empty values does not happen. -/
theorem claim_C6_counterexample :
    extract_emails_from_dataframe blankCellDf = ["", "a@x.com"] ∧
      "" ∈ extract_emails_from_dataframe blankCellDf := by
  constructor
  · decide
  · decide

/-- C6 as amended: the extractor takes the values of the first column whose
name contains email case-insensitively (else the first column), drops null
cells, trims whitespace, deduplicates case-sensitively keeping first
occurrences in order (the result is a duplicate-free sublist of the
stripped column values containing each of them) — but values that trim to
the empty string are kept; on the example table it returns the single
recipient asha@x.com with name Asha Rao. -/
theorem claim_C6_amended :
    (∀ df : DataFrame,
      List.Sublist (extract_emails_from_dataframe df)
          (((colValues df (emailColIdx df)).filterMap id).map
            (fun s => String.mk (pyStrip s.data))) ∧
        (extract_emails_from_dataframe df).Nodup ∧
        (∀ y ∈ ((colValues df (emailColIdx df)).filterMap id).map
            (fun s => String.mk (pyStrip s.data)),
          y ∈ extract_emails_from_dataframe df)) ∧
      recipientsFromDataframe ashaDf = [⟨"asha@x.com", "Asha Rao"⟩] := by
  constructor
  · intro df
    exact ⟨dedupFirstF_sublist _ _, dedupFirstF_nodup _ _ (le_refl _),
      fun y hy => dedupFirstF_complete _ _ y (le_refl _) hy⟩
  · decide

theorem occurs_append_right (p : Chars) :
    ∀ (x t : Chars), occurs p t = true → occurs p (x ++ t) = true := by
  intro x
  induction x with
  | nil => intro t h; simpa using h
  | cons c cs ih =>
    intro t h
    rw [List.cons_append, occurs_cons]
    simp [ih t h]

theorem stylize_shape (env : StylizeEnv) (raw : String) (pn : Option String)
    (h : ¬ raw = "") :
    ∃ x y, stylize_marketing_body env raw pn =
      x ++ (media_html (media_src env pn) ++ y) := by
  unfold stylize_marketing_body
  rw [if_neg h]
  exact ⟨_, _, rfl⟩

set_option maxRecDepth 100000 in
/-- C5 counterexample: with no product selected and no ANIMATED_GIF_URL
configured, the media source is absent, yet the output still contains a
media block — whose image source is the literal string None rendered by
the f-string — refuting the claim that the block appears only when a
source is available. -/
theorem claim_C5_counterexample :
    media_src ⟨none, none⟩ none = none ∧
      occurs "src=\"None\"".data
        (stylize_marketing_body ⟨none, none⟩
          "Teachers are drowning in grading tasks every week." none) = true :=
  ⟨rfl, by decide⟩

/-- C5 as amended: for every nonempty raw body the output contains the
media block unconditionally; the block references the selected product's
image URL when the product has one, else the ANIMATED_GIF_URL fallback
when configured, and otherwise carries the hardcoded string None as its
image source. -/
theorem claim_C5_amended :
    (∀ (env : StylizeEnv) (raw : String) (pn : Option String), raw ≠ "" →
      occurs (media_html (media_src env pn))
        (stylize_marketing_body env raw pn) = true) ∧
      media_src ⟨none, none⟩ (some "Class Tom") =
        some "https://www.eduaihub.in/wp-content/uploads/2025/03/class_tom.jpg" ∧
      media_src ⟨some "https://cdn.example/x.gif", none⟩ none =
        some "https://cdn.example/x.gif" ∧
      media_src ⟨none, none⟩ none = none ∧
      occurs "src=\"None\"".data (media_html none) = true := by
  refine ⟨?_, by decide, rfl, rfl, by decide⟩
  intro env raw pn h
  obtain ⟨x, y, hxy⟩ := stylize_shape env raw pn h
  rw [hxy]
  exact occurs_append_right _ x _ (occurs_self_append _ y)

/-- Concrete instance of the C5 amended theorem with its hypothesis
discharged. -/
theorem claim_C5_witness :
    ("hello" : String) ≠ "" ∧
      occurs (media_html (media_src ⟨none, none⟩ none))
        (stylize_marketing_body ⟨none, none⟩ "hello" none) = true :=
  ⟨by decide, claim_C5_amended.1 ⟨none, none⟩ "hello" none (by decide)⟩

theorem ptF_suffix (g0 g1 g2 : Chars) : ∀ (frag : Chars) (fuel : Nat),
    frag.length + 2 ≤ fuel → frag.contains '\\' = false →
    parseTemplateF g0 g1 g2 fuel (frag ++ ['\\', '2']) = some (frag ++ g2) := by
  intro frag
  induction frag with
  | nil =>
    intro fuel hf _
    obtain ⟨f, rfl⟩ : ∃ f, fuel = f + 2 := ⟨fuel - 2, by omega⟩
    simp [parseTemplateF]
  | cons a as ih =>
    intro fuel hf hc
    simp only [List.contains_cons, Bool.or_eq_false_iff] at hc
    obtain ⟨ha, hcs⟩ := hc
    obtain ⟨f, rfl⟩ : ∃ f, fuel = f + 1 := ⟨fuel - 1, by omega⟩
    have ha' : a ≠ '\\' := by
      intro h; subst h; simp at ha
    simp only [List.cons_append, parseTemplateF, if_pos ha', List.append_eq]
    rw [ih f (by simp at hf; omega) hcs]
    rfl

theorem ptF_clean (g0 g1 g2 frag : Chars)
    (h1 : frag.contains '\\' = false)
    (h2 : (frag.headD 'x').isDigit = false) :
    ∀ fuel, frag.length + 4 ≤ fuel →
    parseTemplateF g0 g1 g2 fuel ('\\' :: '1' :: (frag ++ ['\\', '2'])) =
      some (g1 ++ (frag ++ g2)) := by
  intro fuel hf
  obtain ⟨f, rfl⟩ : ∃ f, fuel = f + 1 := ⟨fuel - 1, by omega⟩
  have hhead : ((frag ++ ['\\', '2']).headD 'x').isDigit = false := by
    cases frag with
    | nil => simp
    | cons a as => simpa using h2
  simp only [parseTemplateF]
  rw [if_neg (by simp)]
  simp only [if_neg (by decide : ¬ ('1' : Char) = '\\'),
    if_neg (by decide : ¬ ('1' : Char) = '0'),
    if_pos (by decide : ('1' : Char).isDigit = true)]
  rw [hhead]
  simp only [Bool.false_eq_true, if_false, if_pos rfl]
  rw [ptF_suffix g0 g1 g2 frag f (by omega) h1]
  rfl

theorem subTdF_clean (frag : Chars) : ∀ (fuel : Nat) (s : Chars), s.length ≤ fuel →
    (∀ n < s.length, tdMatchAt (s.drop n) = none) → subTdF frag fuel s = some s := by
  intro fuel
  induction fuel with
  | zero => intro s _ _; rfl
  | succ f ih =>
    intro s hl hn
    cases s with
    | nil => rfl
    | cons c cs =>
      have h0 : tdMatchAt (c :: cs) = none := by simpa using hn 0 (by simp)
      simp only [subTdF, h0]
      rw [ih cs (by simp at hl; omega)
        (fun n hn' => by simpa using hn (n + 1) (by simp; omega))]
      rfl

theorem hasTdMatch_of_match : ∀ (s : Chars) (n : Nat) (m : Nat × Nat),
    tdMatchAt (s.drop n) = some m → hasTdMatch s = true := by
  intro s
  induction s with
  | nil =>
    intro n m h
    simp [tdMatchAt, tdOpenMatch, isPreCI] at h
  | cons c cs ih =>
    intro n m h
    cases n with
    | zero =>
      simp only [List.drop_zero] at h
      simp [hasTdMatch, h]
    | succ n' =>
      simp only [List.drop_succ_cons] at h
      simp [hasTdMatch, ih n' m h]

theorem subTdF_single (g1 mid g2 y frag : Chars)
    (hg1 : g1 ≠ [])
    (hm : tdMatchAt (g1 ++ (mid ++ (g2 ++ y))) = some (g1.length, mid.length))
    (hg2 : g2.length = 5)
    (hy : ∀ n < y.length, tdMatchAt (y.drop n) = none)
    (hf1 : frag.contains '\\' = false)
    (hf2 : (frag.headD 'x').isDigit = false) :
    ∀ (x : Chars) (fuel : Nat),
      (x ++ (g1 ++ (mid ++ (g2 ++ y)))).length ≤ fuel →
      (∀ n < x.length, tdMatchAt ((x ++ (g1 ++ (mid ++ (g2 ++ y)))).drop n) = none) →
      subTdF frag fuel (x ++ (g1 ++ (mid ++ (g2 ++ y)))) =
        some (x ++ (g1 ++ (frag ++ (g2 ++ y)))) := by
  have hTake : (g1 ++ (mid ++ (g2 ++ y))).take g1.length = g1 := List.take_left' rfl
  have hAssoc1 : g1 ++ (mid ++ (g2 ++ y)) = (g1 ++ mid) ++ (g2 ++ y) := by simp
  have hDropMid : (g1 ++ (mid ++ (g2 ++ y))).drop (g1.length + mid.length) = g2 ++ y := by
    rw [hAssoc1]; exact List.drop_left' (by simp)
  have hG2t : (g2 ++ y).take 5 = g2 := List.take_left' hg2
  have hRest : (g1 ++ (mid ++ (g2 ++ y))).drop (g1.length + mid.length + 5) = y := by
    rw [show g1 ++ (mid ++ (g2 ++ y)) = ((g1 ++ mid) ++ g2) ++ y by simp]
    exact List.drop_left' (by simp [hg2]; omega)
  intro x
  induction x with
  | nil =>
    intro fuel hl hx
    obtain ⟨d, g1', hd⟩ := List.exists_cons_of_ne_nil hg1
    simp only [List.nil_append] at hl ⊢
    obtain ⟨f, rfl⟩ : ∃ f, fuel = f + 1 := by
      refine ⟨fuel - 1, ?_⟩
      subst hd
      simp at hl
      omega
    rw [hd] at hm hTake hDropMid hRest ⊢
    simp only [List.cons_append, subTdF, List.append_eq] at *
    rw [hm]
    simp only [hTake, hDropMid, hG2t, hRest]
    rw [show parseTemplate ((d :: (g1' ++ (mid ++ (g2 ++ y)))).take
        ((d :: g1').length + mid.length + 5)) (d :: g1') g2
        ('\\' :: '1' :: (frag ++ ['\\', '2'])) = some ((d :: g1') ++ (frag ++ g2)) from by
      unfold parseTemplate
      exact ptF_clean _ _ _ frag hf1 hf2 _ (by simp)]
    rw [subTdF_clean frag f y (by simp at hl; omega) hy]
    simp

  | cons c x' ih =>
    intro fuel hl hx
    obtain ⟨f, rfl⟩ : ∃ f, fuel = f + 1 := ⟨fuel - 1, by simp at hl; omega⟩
    have h0 : tdMatchAt (c :: (x' ++ (g1 ++ (mid ++ (g2 ++ y))))) = none := by
      simpa using hx 0 (by simp)
    simp only [List.cons_append, subTdF, h0, List.append_eq]
    rw [ih f (by simp at hl ⊢; omega)
      (fun n hn => by simpa using hx (n + 1) (by simp; omega))]
    rfl

set_option maxRecDepth 100000 in
/-- C8 counterexample: the body-cell re.sub is global, so a skeleton with
two body-class cells receives the fragment twice, not exactly once. -/
theorem claim_C8_counterexample :
    hasTdMatch twoCellSkeleton = true ∧
      countOcc "FRAG".data (injectFragment twoCellSkeleton "FRAG".data) = 2 := by
  constructor
  · decide
  · decide

set_option maxRecDepth 100000 in
/-- C8 as amended: when the skeleton contains exactly one body-class cell
(no match starts before it or after it) and the fragment is free of
backslashes and does not start with a digit, the output is the skeleton
with the cell content replaced by the fragment — everything before the
opening tag and after the closing tag, including header and footer cells,
is unchanged; when no body-class cell matches, every [[AI_BODY]] token is
replaced (str.replace is global); and otherwise a new body row replaces
the first closing table tag; on the concrete one-cell skeleton the
fragment appears exactly once. -/
theorem claim_C8_amended :
    (∀ (x g1 mid g2 y frag : Chars),
      g1 ≠ [] →
      tdMatchAt (g1 ++ (mid ++ (g2 ++ y))) = some (g1.length, mid.length) →
      g2.length = 5 →
      (∀ n < x.length, tdMatchAt ((x ++ (g1 ++ (mid ++ (g2 ++ y)))).drop n) = none) →
      (∀ n < y.length, tdMatchAt (y.drop n) = none) →
      frag.contains '\\' = false →
      (frag.headD 'x').isDigit = false →
      injectFragment (x ++ (g1 ++ (mid ++ (g2 ++ y)))) frag =
        x ++ (g1 ++ (frag ++ (g2 ++ y)))) ∧
    (∀ (s frag : Chars), hasTdMatch s = false →
      occurs "[[AI_BODY]]".data s = true →
      injectFragment s frag = replaceAll "[[AI_BODY]]".data frag s) ∧
    (∀ (s frag : Chars), hasTdMatch s = false →
      occurs "[[AI_BODY]]".data s = false →
      injectFragment s frag =
        replaceFirst "</table>".data
          ("<tr><td class=\"body\">".data ++ frag ++ "</td></tr></table>".data) s) ∧
    countOcc "FRAG".data (injectFragment oneCellSkeleton "FRAG".data) = 1 := by
  refine ⟨?_, ?_, ?_, by decide⟩
  · intro x g1 mid g2 y frag hg1 hm hg2 hx hy hf1 hf2
    have hHas : hasTdMatch (x ++ (g1 ++ (mid ++ (g2 ++ y)))) = true := by
      refine hasTdMatch_of_match _ x.length (g1.length, mid.length) ?_
      rw [List.drop_left]
      exact hm
    unfold injectFragment
    rw [hHas]
    simp only [if_true]
    unfold subTd
    rw [subTdF_single g1 mid g2 y frag hg1 hm hg2 hy hf1 hf2 x _ (le_refl _) hx]
  · intro s frag h1 h2
    unfold injectFragment
    rw [h1, h2]
    simp
  · intro s frag h1 h2
    unfold injectFragment
    rw [h1, h2]
    simp

set_option maxRecDepth 100000 in
/-- Concrete instance of the C8 amended theorem on the one-cell skeleton,
with every hypothesis discharged. -/
theorem claim_C8_witness :
    injectFragment
        ("<table><tr><td class=\"header\">HDR</td></tr><tr>".data ++
          ("<td class=\"body\">".data ++ ("OLD".data ++ ("</td>".data ++
            "</tr><tr><td class=\"footer\">FTR</td></tr></table>".data))))
        "FRAG".data =
      "<table><tr><td class=\"header\">HDR</td></tr><tr>".data ++
        ("<td class=\"body\">".data ++ ("FRAG".data ++ ("</td>".data ++
          "</tr><tr><td class=\"footer\">FTR</td></tr></table>".data))) :=
  claim_C8_amended.1
    "<table><tr><td class=\"header\">HDR</td></tr><tr>".data
    "<td class=\"body\">".data "OLD".data "</td>".data
    "</tr><tr><td class=\"footer\">FTR</td></tr></table>".data "FRAG".data
    (by decide) (by decide) (by decide) (by decide) (by decide) (by decide) (by decide)

end EduMail
